import Mathlib

/-!
# aeron-go call sites: the `ping` example and the `aeron_stat` tool

A shallow embedding of `examples/ping/ping.go` (namespace `Ping`) and
`aeron/stat/aeron_stat.go` (namespace `Stat`).

The two programs are clients of packages that are not part of the embedded
sources (`aeron`, `counters`, `atomic`, `logbuffer`, `hdrhistogram`).  What
those packages return is either taken as an input of the model (the statuses
of `Publication.Offer`, the results of `counters.MapFile`, the clock, the
histogram operations, `float64` formatting) or modelled from the
specification, in which case the definition says so: `Subscription.Poll` as
the ping loops see it, `Reader.Scan`, and, in namespace `LogBuffer`, the
publish and receive paths over a term-structured log.
-/

set_option autoImplicit false

namespace Ping

/-! ## Machine integers -/

/-- Go `int64` arithmetic wraps around: the representative of `x` in
`[-2^63, 2^63)`. -/
def wrapInt64 (x : Int) : Int := (x + 2 ^ 63) % 2 ^ 64 - 2 ^ 63

/-! ## Collaborators of the ping example -/

/-- The `atomic.Buffer` handed to a fragment handler.  The package is not part
of the embedded sources; the only operation the example applies to a received
buffer is `GetInt64`, which is kept as the buffer's read function. -/
structure Buffer where
  GetInt64 : Int → Int

/-- The `logbuffer.Header` handed to a fragment handler, through the three
accessors the example calls on it. -/
structure Header where
  Offset : Int
  TermId : Int
  FrameLength : Int

/-- The arguments of one `FragmentHandler` invocation. -/
structure Fragment where
  buffer : Buffer
  offset : Int
  length : Int
  header : Header

/-- What one call of `Subscription.Poll` finds: a closed subscription, or the
committed frames that are ready at that moment (possibly none). -/
inductive PollEvent where
  | closed
  | ready (frags : List Fragment)

/-- The operations of `hdrhistogram.Histogram` used by the example, over an
arbitrary carrier `H`.  The library is an external dependency and is taken as a
parameter; the error that `RecordValue` may return is dropped by its caller. -/
structure Histogram (H : Type) where
  New : Int → Int → Int → H
  RecordValue : H → Int → H
  Reset : H → H
  TotalCount : H → Int

/-- What counting arguments use of the histogram library, given the values
`accepts` that the histogram can hold: a reset histogram is empty, a recorded
value that the histogram accepts counts once, and `RecordValue` on any other
value (it returns an error, which `ping.go` drops) leaves the count as it
was. -/
structure Histogram.Counts {H : Type} (ops : Histogram H) (accepts : Int → Bool) : Prop where
  reset : ∀ h, ops.TotalCount (ops.Reset h) = 0
  record : ∀ h v, accepts v = true → ops.TotalCount (ops.RecordValue h v) = ops.TotalCount h + 1
  reject : ∀ h v, accepts v = false → ops.TotalCount (ops.RecordValue h v) = ops.TotalCount h

/-- The values that the histogram `hdrhistogram.New(1, 1000000000, 3)` of the
example accepts: with three significant figures and a highest value of `10^9`
its counts cover `0 ≤ v < 2^30`. -/
def hdrAccepts (v : Int) : Bool := decide (0 ≤ v ∧ v < 2 ^ 30)

/-- The histogram `hdrhistogram.New(1, 1000000000, 3)` as far as counting goes:
the list of the values recorded, newest first, where `RecordValue` on a value
outside the accepted range records nothing. -/
def hdrHistogram : Histogram (List Int) where
  New := fun _ _ _ => []
  RecordValue := fun h v => if hdrAccepts v then v :: h else h
  Reset := fun _ => []
  TotalCount := fun h => (h.length : Int)

/-- A histogram that keeps the list of recorded values, newest first. -/
def listHistogram : Histogram (List Int) where
  New := fun _ _ _ => []
  RecordValue := fun h v => v :: h
  Reset := fun _ => []
  TotalCount := fun h => (h.length : Int)

/-- Everything the run of `main` reads from outside the program. -/
structure Env where
  /-- status returned by the `n`-th call of `publication.Offer` -/
  offer : Nat → Int
  /-- what the `n`-th call of `subscription.Poll` finds -/
  poll : Nat → PollEvent
  /-- code returned by `Poll` on a closed subscription, a negative number -/
  closedCode : Int
  closedCode_neg : closedCode < 0
  /-- value of the `n`-th `time.Now().UnixNano()` -/
  clock : Nat → Int
  /-- `logger.IsEnabledFor(logging.DEBUG)` -/
  debug : Bool
  /-- `*examples.ExamplesConfig.Messages` -/
  messages : Int
  /-- `*examples.ExamplesConfig.Size`, the capacity of `srcBuffer` -/
  size : Int
  /-- the largest length for which `make([]byte, n)` succeeds and
  `atomic.MakeBuffer` can wrap the slice -/
  sizeLimit : Int

/-- The state the loops of `main` act on.  `hist` and `srcStamp` are the
variables of `main` that the loops change; the three counters say how many
calls of `Offer`, of `Poll` and of the clock the run has made, which is where
the environment is read next; `log` is the output handed to the logger. -/
structure State (H : Type) where
  hist : H
  /-- the `int64` stored at offset 0 of `srcBuffer` -/
  srcStamp : Int
  offerCalls : Nat
  pollCalls : Nat
  clockReads : Nat
  /-- messages handed to the logger, oldest first -/
  log : List String

variable {H : Type}

/-- `time.Now().UnixNano()`. -/
def now (env : Env) (s : State H) : Int × State H :=
  (env.clock s.clockReads, { s with clockReads := s.clockReads + 1 })

/-- A logger call that is emitted. -/
def logf (msg : String) (s : State H) : State H :=
  { s with log := s.log ++ [msg] }

/-- The text of the handler's `Debugf` call. -/
def receivedMessage (f : Fragment) : String :=
  "Received message at offset " ++ toString f.offset ++ ", length " ++ toString f.length
    ++ ", position " ++ toString f.header.Offset ++ ", termId " ++ toString f.header.TermId
    ++ ", frame len " ++ toString f.header.FrameLength

/-- The `handler` closure of `main`. -/
def handler (ops : Histogram H) (env : Env) (f : Fragment) (s : State H) : State H :=
  let sent := f.buffer.GetInt64 f.offset
  let (t, s) := now env s
  let s := { s with hist := ops.RecordValue s.hist (wrapInt64 (t - sent)) }
  if env.debug then logf (receivedMessage f) s else s

/-- `publication.Offer(srcBuffer, 0, srcBuffer.Capacity(), nil)`: the status is
the one the environment gives for this call. -/
def Offer (env : Env) (s : State H) : Int × State H :=
  (env.offer s.offerCalls, { s with offerCalls := s.offerCalls + 1 })

/-- Modelled from the spec: `Subscription.Poll(handler, fragmentLimit)`, whose
code is not among the embedded sources.  On a closed subscription it returns
the negative closed code; otherwise it invokes the handler synchronously on
each ready frame, in order, stopping after `fragmentLimit` fragments, and
returns the number delivered (0 when nothing is ready). -/
def Poll (env : Env) (h : Fragment → State H → State H) (fragmentLimit : Int)
    (s : State H) : Int × State H :=
  match env.poll s.pollCalls with
  | .closed => (env.closedCode, { s with pollCalls := s.pollCalls + 1 })
  | .ready frags =>
    let delivered := frags.take fragmentLimit.toNat
    ((delivered.length : Int),
      delivered.foldl (fun st f => h f st) { s with pollCalls := s.pollCalls + 1 })

/-- The value returned by the `n`-th call of `subscription.Poll(handler, 10)`. -/
def pollResult (env : Env) (n : Nat) : Int :=
  match env.poll n with
  | .closed => env.closedCode
  | .ready frags => ((frags.take 10).length : Int)

/-! ## The four retry loops of `main`

Each loop is given `fuel`, a bound on the number of iterations explored;
`none` means the loop is still spinning after `fuel` iterations. -/

/-- Warm-up offer loop: `for true { ret := Offer(..); ..; if ret > 0 { break } }`. -/
def warmupOfferLoop (env : Env) : Nat → State H → Option (State H)
  | 0, _ => none
  | fuel + 1, s =>
    let (ret, s) := Offer env s
    let s := if env.debug then logf ("Failed offer " ++ toString ret) s else s
    if ret > 0 then some s else warmupOfferLoop env fuel s

/-- Warm-up poll loop: `for true { ret := Poll(handler, 10); ..; if ret > 0 { break } }`. -/
def warmupPollLoop (ops : Histogram H) (env : Env) : Nat → State H → Option (State H)
  | 0, _ => none
  | fuel + 1, s =>
    let (ret, s) := Poll env (handler ops env) 10 s
    let s := if env.debug then
        (if ret < 0 then logf ("Poll returned " ++ toString ret) s else s)
      else s
    if ret > 0 then some s else warmupPollLoop ops env fuel s

/-- Steady-state offer loop: `for Offer(..) < 0 { }`. -/
def steadyOfferLoop (env : Env) : Nat → State H → Option (State H)
  | 0, _ => none
  | fuel + 1, s =>
    let (ret, s) := Offer env s
    if ret < 0 then steadyOfferLoop env fuel s else some s

/-- Steady-state poll loop: `for Poll(handler, 10) <= 0 { }`. -/
def steadyPollLoop (ops : Histogram H) (env : Env) : Nat → State H → Option (State H)
  | 0, _ => none
  | fuel + 1, s =>
    let (ret, s) := Poll env (handler ops env) 10 s
    if ret ≤ 0 then steadyPollLoop ops env fuel s else some s

/-! ## The two phases of `main` -/

/-- How a part of `main` ends within the fuel given to its retry loops: the
program stopped with a run-time panic, a retry loop was still running when its
fuel ended, or the part ran to its end. -/
inductive Outcome (α : Type) where
  | aborted
  | spinning
  | done (a : α)

/-- Sequencing: the second part runs when the first has run to its end. -/
def Outcome.bind {α β : Type} : Outcome α → (α → Outcome β) → Outcome β
  | Outcome.aborted, _ => Outcome.aborted
  | Outcome.spinning, _ => Outcome.spinning
  | Outcome.done a, f => f a

/-- The result of a part that ran to its end, transformed. -/
def Outcome.map {α β : Type} (f : α → β) : Outcome α → Outcome β
  | Outcome.aborted => Outcome.aborted
  | Outcome.spinning => Outcome.spinning
  | Outcome.done a => Outcome.done (f a)

/-- The outcome of a retry loop: it has returned, or it is still spinning. -/
def Outcome.ofLoop {α : Type} : Option α → Outcome α
  | none => Outcome.spinning
  | some a => Outcome.done a

/-- Runs `body` `n` times in sequence: `for i := 0; i < n; i++ { body }`. -/
def forLoop (body : State H → Outcome (State H)) : Nat → State H → Outcome (State H)
  | 0, s => Outcome.done s
  | n + 1, s => (body s).bind (forLoop body n)

/-- The first two statements of both loop bodies:
`now := time.Now().UnixNano(); srcBuffer.PutInt64(0, now)`.  The store of eight
bytes at offset 0 fails its bounds check, and stops the program, when the
buffer is shorter than eight bytes. -/
def stamp (env : Env) (s : State H) : Outcome (State H) :=
  let (t, s) := now env s
  if env.size < 8 then Outcome.aborted else Outcome.done { s with srcStamp := t }

/-- Body of the warm-up `for` loop. -/
def warmupIteration (ops : Histogram H) (env : Env) (fuel : Nat) (s : State H) :
    Outcome (State H) :=
  (stamp env s).bind (fun s =>
    (Outcome.ofLoop (warmupOfferLoop env fuel s)).bind (fun s =>
      Outcome.ofLoop (warmupPollLoop ops env fuel s)))

/-- Body of the steady-state `for` loop. -/
def steadyIteration (ops : Histogram H) (env : Env) (fuel : Nat) (s : State H) :
    Outcome (State H) :=
  (stamp env s).bind (fun s =>
    (Outcome.ofLoop (steadyOfferLoop env fuel s)).bind (fun s =>
      Outcome.ofLoop (steadyPollLoop ops env fuel s)))

/-- `warmupIt := 1000`. -/
def warmupIt : Nat := 1000

/-- The state in which `main` reaches the warm-up phase: a fresh histogram
`hdrhistogram.New(1, 1000000000, 3)` and a zeroed `srcBuffer`. -/
def initState (ops : Histogram H) : State H :=
  { hist := ops.New 1 1000000000 3, srcStamp := 0, offerCalls := 0, pollCalls := 0,
    clockReads := 0, log := [] }

/-- Warm-up phase of `main`: the `Infof` line and `warmupIt` iterations. -/
def warmupPhase (ops : Histogram H) (env : Env) (fuel : Nat) (s : State H) :
    Outcome (State H) :=
  forLoop (warmupIteration ops env fuel) warmupIt
    (logf ("Sending " ++ toString warmupIt ++ " messages of " ++ toString env.size
      ++ " bytes for warmup") s)

/-- The statement between the phases: `hist.Reset()`. -/
def resetHist (ops : Histogram H) (s : State H) : State H :=
  { s with hist := ops.Reset s.hist }

/-- Steady-state phase of `main`: the `Infof` line and `Messages` iterations
(none when `Messages` is not positive). -/
def steadyPhase (ops : Histogram H) (env : Env) (fuel : Nat) (s : State H) :
    Outcome (State H) :=
  forLoop (steadyIteration ops env fuel) env.messages.toNat
    (logf ("Sending " ++ toString env.messages ++ " messages of " ++ toString env.size
      ++ " bytes") s)

/-- The state of `main` when it reaches `OutputPercentileDistribution`, from the
creation of the histogram on.  `atomic.MakeBuffer(make([]byte, Size))` stops the
program with a panic when `Size` is negative or too large to allocate. -/
def run (ops : Histogram H) (env : Env) (fuel : Nat) : Outcome (State H) :=
  if env.size < 0 ∨ env.sizeLimit < env.size then Outcome.aborted
  else
    (warmupPhase ops env fuel (initState ops)).bind
      (fun s => steadyPhase ops env fuel (resetHist ops s))

/-! ## The report -/

/-- One entry of `Histogram.CumulativeDistribution()`. -/
structure Bracket (F : Type) where
  Quantile : F
  Count : Int
  ValueAt : Int

/-- The reporting operations of the histogram, with `float64` results in `F`. -/
structure Stats (H F : Type) where
  CumulativeDistribution : H → List (Bracket F)
  Mean : H → F
  StdDev : H → F
  Max : H → Int

/-- The `float64` operations the report uses, over an abstract carrier `F`:
conversion from an integer, division, subtraction, and the `Sprintf` verb
`%w.pf` as `fmt w p`. -/
structure FloatOps (F : Type) where
  ofInt : Int → F
  div : F → F → F
  sub : F → F → F
  fmt : Nat → Nat → F → String

/-- Left-pads `s` with blanks to width `w`. -/
def padLeft (w : Nat) (s : String) : String :=
  String.mk (List.replicate (w - s.length) ' ') ++ s

/-- The `Sprintf` verb `%wd`. -/
def fmtD (w : Nat) (n : Int) : String := padLeft w (toString n)

/-- Where a write goes: the process's standard output (`fmt.Print`) or the
writer `out` passed to the function (`io.WriteString(out, ..)`). -/
inductive Sink where
  | stdout
  | out
  deriving DecidableEq, Repr

/-- The line written for one bucket of the cumulative distribution. -/
def bucketLine {F : Type} (fl : FloatOps F) (scalingFactor : F) (b : Bracket F) : String :=
  let pct := fl.div b.Quantile (fl.ofInt 100)
  fl.fmt 12 3 (fl.div (fl.ofInt b.ValueAt) scalingFactor) ++ " " ++ fl.fmt 2 12 pct ++ "  "
    ++ fmtD 10 b.Count ++ "  " ++ fl.fmt 14 2 (fl.div (fl.ofInt 1) (fl.sub (fl.ofInt 1) pct))
    ++ "\n"

/-- The `#[Mean ..., StdDeviation ...]` line. -/
def meanLine {F : Type} (fl : FloatOps F) (st : Stats H F) (h : H) (scalingFactor : F) : String :=
  "#[Mean    = " ++ fl.fmt 12 3 (fl.div (st.Mean h) scalingFactor)
    ++ ", StdDeviation   = " ++ fl.fmt 12 3 (fl.div (st.StdDev h) scalingFactor) ++ "]\n"

/-- The `#[Max ..., Total count ...]` line. -/
def maxLine {F : Type} (fl : FloatOps F) (ops : Histogram H) (st : Stats H F) (h : H)
    (scalingFactor : F) : String :=
  "#[Max     = " ++ fl.fmt 12 3 (fl.div (fl.ofInt (st.Max h)) scalingFactor)
    ++ ", Total count    = " ++ fmtD 12 (ops.TotalCount h) ++ "]\n"

/-- The column header, which the function prints with `fmt.Print`. -/
def columnHeader : String := "Value     Percentile TotalCount 1/(1-Percentile)\n\n"

/-- `OutputPercentileDistribution(out, h, scalingFactor)`: the writes it
performs, in order, each tagged with its destination. -/
def OutputPercentileDistribution {F : Type} (fl : FloatOps F) (ops : Histogram H)
    (st : Stats H F) (h : H) (scalingFactor : F) : List (Sink × String) :=
  let w := [(Sink.stdout, columnHeader)]
  let w := (st.CumulativeDistribution h).foldl
    (fun w b => w ++ [(Sink.out, bucketLine fl scalingFactor b)]) w
  let w := w ++ [(Sink.out, meanLine fl st h scalingFactor)]
  w ++ [(Sink.out, maxLine fl ops st h scalingFactor)]

/-- The strings written to sink `k`, in order. -/
def writtenTo (k : Sink) (w : List (Sink × String)) : List String :=
  (w.filter (fun p => p.1 = k)).map Prod.snd

/-- The part of `main` from the creation of the histogram to its end: the final
state and the writes of the report, where `out` is `os.Stdout`. -/
def main {F : Type} (fl : FloatOps F) (ops : Histogram H) (st : Stats H F) (env : Env)
    (fuel : Nat) : Outcome (State H × List String) :=
  (run ops env fuel).map
    (fun s => (s, (OutputPercentileDistribution fl ops st s.hist (fl.ofInt 1000)).map Prod.snd))

/-! ## Predicates and sample inputs used by the theorems -/

/-- The fields a retry loop on `Offer` leaves alone. -/
def OfferFrame (s s' : State H) : Prop :=
  s'.hist = s.hist ∧ s'.pollCalls = s.pollCalls ∧ s'.srcStamp = s.srcStamp
    ∧ s'.clockReads = s.clockReads

/-- What the two poll loops have in common: no result without fuel, and one
iteration polls once and stops exactly when the result is positive. -/
def PollLoopLike (ops : Histogram H) (env : Env) (L : Nat → State H → Option (State H)) : Prop :=
  (∀ s, L 0 s = none) ∧
  ∀ fuel s, ∃ s1 : State H, s1.pollCalls = s.pollCalls + 1 ∧ s1.offerCalls = s.offerCalls
    ∧ s1.srcStamp = s.srcStamp
    ∧ s1.hist = (Poll env (handler ops env) 10 s).2.hist
    ∧ L (fuel + 1) s = if 0 < pollResult env s.pollCalls then some s1 else L fuel s1

/-- Sum of the positive results among the `n` calls of `Poll` numbered
`a, a+1, .., a+n-1`. -/
def sumPositive (env : Env) (a : Nat) : Nat → Int
  | 0 => 0
  | n + 1 => max (pollResult env a) 0 + sumPositive env (a + 1) n

/-- A value that the handler can record in environment `env`: the `int64`
difference between a clock reading and the integer at the offset of a received
fragment. -/
def HandlerValue (env : Env) (v : Int) : Prop :=
  ∃ (c : Nat) (f : Fragment), v = wrapInt64 (env.clock c - f.buffer.GetInt64 f.offset)

/-- Histogram `h'` is `h` after `n` calls of `RecordValue`, each with a value of
the handler, and nothing else. -/
def Recorded (ops : Histogram H) (env : Env) (h h' : H) (n : Int) : Prop :=
  ∃ vs : List Int, h' = vs.foldl ops.RecordValue h ∧ (vs.length : Int) = n
    ∧ ∀ v, v ∈ vs → HandlerValue env v

/-- What one iteration of either phase does: it polls at least once, and the
handler calls `RecordValue` once per fragment delivered by those polls, between
1 and 10 times in all. -/
def IterationSpec (ops : Histogram H) (env : Env) (s s' : State H) : Prop :=
  s.pollCalls < s'.pollCalls
    ∧ Recorded ops env s.hist s'.hist
        (sumPositive env s.pollCalls (s'.pollCalls - s.pollCalls))
    ∧ 1 ≤ sumPositive env s.pollCalls (s'.pollCalls - s.pollCalls)
    ∧ sumPositive env s.pollCalls (s'.pollCalls - s.pollCalls) ≤ 10

/-- Modelled from the spec: the negative codes of `Publication.Offer`, whose
declarations are not among the embedded sources. -/
def NOT_CONNECTED : Int := -1

/-- Modelled from the spec: see `NOT_CONNECTED`. -/
def BACK_PRESSURED : Int := -2

/-- Modelled from the spec: see `NOT_CONNECTED`. -/
def ADMIN_ACTION : Int := -3

/-- Modelled from the spec: see `NOT_CONNECTED`. -/
def PUBLICATION_CLOSED : Int := -4

/-- A received fragment whose first eight payload bytes hold the timestamp 0. -/
def sampleFragment : Fragment :=
  { buffer := { GetInt64 := fun _ => 0 }, offset := 32, length := 32,
    header := { Offset := 0, TermId := 7, FrameLength := 64 } }

/-- An environment in which the first calls of `Offer` return `offers` and the
first calls of `Poll` find `polls`; every later `Offer` returns the position 64
and every later `Poll` finds one fragment.  The closed code is -1. -/
def sampleEnv (offers : List Int) (polls : List PollEvent) : Env :=
  { offer := fun n => offers.getD n 64
    poll := fun n => polls.getD n (PollEvent.ready [sampleFragment])
    closedCode := -1
    closedCode_neg := by decide
    clock := fun n => (n : Int) * 1000
    debug := false
    messages := 2
    size := 32
    sizeLimit := 2147483647 }

/-- A received fragment whose first eight payload bytes hold a timestamp 1000
seconds later than the first clock reading of `skewedEnv`. -/
def lateFragment : Fragment :=
  { buffer := { GetInt64 := fun _ => 1700001000000000000 }, offset := 32, length := 32,
    header := { Offset := 0, TermId := 7, FrameLength := 64 } }

/-- An environment in which every `Offer` returns the position 64 and every
`Poll` delivers one fragment, whose timestamp is later than the clock readings
of the run: the clock starts at 1700000000000000000 ns and advances by a
microsecond per reading. -/
def skewedEnv : Env :=
  { offer := fun _ => 64
    poll := fun _ => PollEvent.ready [lateFragment]
    closedCode := -1
    closedCode_neg := by decide
    clock := fun n => 1700000000000000000 + (n : Int) * 1000
    debug := false
    messages := 2
    size := 32
    sizeLimit := 2147483647 }

/-- A newline-terminated line: the text ends in a newline and holds no other. -/
def IsLine (l : String) : Prop :=
  l.data.getLast? = some '\n' ∧ l.data.count '\n' = 1

/-- A stand-in for `float64` on the integers, whose `%w.pf` verb prints the
decimal digits of the number. -/
def sampleFloat : FloatOps Int :=
  { ofInt := fun n => n, div := fun a b => a / b, sub := fun a b => a - b,
    fmt := fun _ _ x => toString x }

/-- Reporting operations for `listHistogram`: one bucket per recorded value. -/
def sampleStats : Stats (List Int) Int :=
  { CumulativeDistribution := fun h => h.map (fun v => { Quantile := 50, Count := 1, ValueAt := v })
    Mean := fun h => h.sum
    StdDev := fun _ => 0
    Max := fun h => h.foldl max 0 }

/-- The state after one iteration of either phase in `skewedEnv`. -/
def skewedNext (s : State (List Int)) : State (List Int) :=
  { hist := [], srcStamp := 1700000000000000000 + (s.clockReads : Int) * 1000,
    offerCalls := s.offerCalls + 1,
    pollCalls := s.pollCalls + 1, clockReads := s.clockReads + 2, log := s.log }

end Ping

namespace Stat

/-! ## The counters directory read by `aeron_stat` -/

/-- Modelled from the spec: the state of a counter metadata slot. -/
inductive CounterState where
  | UNUSED
  | ALLOCATED
  | RECLAIMED
  deriving DecidableEq, Repr

/-- Modelled from the spec: one slot of the metadata region (`id`, `state`,
`typeId`, `label`). -/
structure CounterMetadataEntry where
  id : Int
  state : CounterState
  typeId : Int
  label : String

/-- Modelled from the spec: one slot of the values region, a 64-bit value
addressed by the same slot index as its metadata entry. -/
structure CounterValueEntry where
  value : Int

/-- The metadata region: a fixed number of slots. -/
structure MetaDataView where
  capacity : Nat
  slot : Nat → CounterMetadataEntry

/-- The values region, indexed like the metadata region. -/
structure ValuesView where
  slot : Nat → CounterValueEntry

/-- The `counters.Counter` handed to the visitor of `Scan`. -/
structure Counter where
  Id : Int
  Label : String
  Value : Int
  deriving DecidableEq, Repr

/-- The `counters.Reader` built by `counters.NewReader(values, metaData)`. -/
structure Reader where
  values : ValuesView
  metaData : MetaDataView

/-- `counters.NewReader`. -/
def NewReader (values : ValuesView) (metaData : MetaDataView) : Reader :=
  { values := values, metaData := metaData }

/-- The projection of slot `i` that `Scan` delivers. -/
def Reader.counterAt (r : Reader) (i : Nat) : Counter :=
  { Id := (r.metaData.slot i).id, Label := (r.metaData.slot i).label,
    Value := (r.values.slot i).value }

/-- Modelled from the spec: the loop of `Reader.Scan`, whose code is not among
the embedded sources, over the `n` slots from index `i` on.  Each slot's state
is read; a slot that is not ALLOCATED is skipped; for an ALLOCATED slot the
label and the paired value are read and the visitor is invoked. -/
def Reader.scanFrom {σ : Type} (r : Reader) (visit : Counter → σ → σ) : Nat → Nat → σ → σ
  | 0, _, st => st
  | n + 1, i, st =>
    let st := if (r.metaData.slot i).state = CounterState.ALLOCATED
      then visit (r.counterAt i) st else st
    r.scanFrom visit n (i + 1) st

/-- Modelled from the spec: `Reader.Scan(visit)`, which iterates the metadata
slots in ascending slot-index order from 0 to the capacity.  The visitor's
effect is a transformation of the state `σ` it closes over. -/
def Reader.Scan {σ : Type} (r : Reader) (visit : Counter → σ → σ) (st : σ) : σ :=
  r.scanFrom visit r.metaData.capacity 0 st

/-- The value `counters.MapFile` returns first, with the two buffers `main`
takes from it. -/
structure MetaDataFlyweight where
  ValuesBuf : ValuesView
  MetaDataBuf : MetaDataView

/-- How a run of `main` ends: with a nil-pointer dereference, or normally with
the text it printed on standard output. -/
inductive Outcome where
  | nilDereference
  | exited (stdout : String)
  deriving DecidableEq, Repr

/-- The visitor `main` passes to `Scan`:
`fmt.Printf("[%d]=%d\t\tlabel:%s\n", counter.Id, counter.Value, counter.Label)`,
acting on the text printed so far. -/
def printCounter (counter : Counter) (stdout : String) : String :=
  stdout ++ ("[" ++ toString counter.Id ++ "]=" ++ toString counter.Value ++ "\t\tlabel:"
    ++ counter.Label ++ "\n")

/-- The line printed for one counter. -/
def counterLine (counter : Counter) : String := printCounter counter ""

/-- `main` of `aeron_stat`, as a function of the two results of
`counters.MapFile(ctx.CncFileName())`: the handle, which is `none` for a nil
pointer, and the second result, which `main` binds to the blank identifier. -/
def main {ε : Type} (mapFile : Option MetaDataFlyweight × ε) : Outcome :=
  let (counterFile, _) := mapFile
  match counterFile with
  | none => Outcome.nilDereference
  | some counterFile =>
    let reader := NewReader counterFile.ValuesBuf counterFile.MetaDataBuf
    Outcome.exited (reader.Scan printCounter "")

/-- The counters `Scan` visits, in the order of the visits. -/
def Reader.visited (r : Reader) : List Counter :=
  r.Scan (fun c acc => acc ++ [c]) []

/-- The indexes of the ALLOCATED slots, ascending. -/
def Reader.allocated (r : Reader) : List Nat :=
  (List.range r.metaData.capacity).filter
    (fun i => (r.metaData.slot i).state = CounterState.ALLOCATED)

/-- A directory given by the list of its slots, each a metadata entry and a
value; slots beyond the list are UNUSED. -/
def directoryOf (slots : List (CounterMetadataEntry × Int)) : MetaDataFlyweight :=
  { ValuesBuf := { slot := fun i => { value := (slots.map Prod.snd).getD i 0 } }
    MetaDataBuf :=
      { capacity := slots.length
        slot := fun i => (slots.map Prod.fst).getD i
          { id := i, state := CounterState.UNUSED, typeId := 0, label := "" } } }

/-- The directory of the specification's example:
`[ALLOCATED id=1 label="bytes-sent" value=42, UNUSED, ALLOCATED id=3 label="errors" value=0]`. -/
def exampleDirectory : MetaDataFlyweight :=
  directoryOf
    [({ id := 1, state := CounterState.ALLOCATED, typeId := 0, label := "bytes-sent" }, 42),
     ({ id := 2, state := CounterState.UNUSED, typeId := 0, label := "" }, 0),
     ({ id := 3, state := CounterState.ALLOCATED, typeId := 0, label := "errors" }, 0)]

/-- Modelled from the spec: the two ways the mapping can fail with `IOError`,
the backing file absent or smaller than its declared size. -/
inductive IOError where
  | fileAbsent
  | fileTooSmall
  deriving DecidableEq, Repr

end Stat

namespace LogBuffer

/-! ## The publish and receive paths, from the specification

`Publication.Offer` and `Subscription.Poll` are not among the embedded sources.
This part models them as the specification describes them, sequentially: one
publisher, one subscriber, every store visible as soon as it is made. -/

/-- A byte of a payload. -/
abbrev Byte := Fin 256

/-- Modelled from the spec: the constants of the log buffer, whose declarations
are not among the embedded sources (header size, FRAME_ALIGNMENT, term
capacity). -/
structure Config where
  headerSize : Nat
  frameAlignment : Nat
  termCapacity : Nat

/-- Modelled from the spec: `align(n, FRAME_ALIGNMENT)`, the least multiple of
the alignment that is at least `n`. -/
def align (n a : Nat) : Nat := (n + a - 1) / a * a

/-- Modelled from the spec: the `type` field of a frame header; a padding frame
marks its term exhausted. -/
inductive FrameType where
  | DATA
  | PAD
  deriving DecidableEq, Repr

/-- Modelled from the spec: the header of a frame; `frameLength` is the commit
marker and is 0 while the frame is unpublished. -/
structure FrameHeader where
  frameLength : Nat
  flags : Nat
  type : FrameType
  termOffset : Nat
  sessionId : Int
  streamId : Int
  termId : Nat
  reservedValue : Int

/-- Modelled from the spec: one term of a stream's log: its tail (append
cursor), the frame header stored at each offset and the bytes of the term. -/
structure Term where
  tail : Nat
  header : Nat → FrameHeader
  bytes : Nat → Byte

/-- Modelled from the spec: the log of one stream, one term per term
identifier.  A segment is reused for a later term only once rotation onto it is
possible, so the terms are kept apart here. -/
structure Log where
  term : Nat → Term

/-- A log in which nothing has been written. -/
def Log.empty : Log :=
  { term := fun _ =>
      { tail := 0
        header := fun _ =>
          { frameLength := 0, flags := 0, type := FrameType.DATA, termOffset := 0,
            sessionId := 0, streamId := 0, termId := 0, reservedValue := 0 }
        bytes := fun _ => 0 } }

/-- Replaces term `t` of the log. -/
def Log.setTerm (log : Log) (t : Nat) (tm : Term) : Log :=
  { term := fun u => if u = t then tm else log.term u }

/-- Modelled from the spec: the publisher's handle on a stream. -/
structure Publication where
  closed : Bool
  sessionId : Int
  streamId : Int
  activeTermId : Nat

/-- Modelled from the spec: a position, the pair (termId, termOffset). -/
structure Position where
  termId : Nat
  termOffset : Nat
  deriving DecidableEq, Repr

/-- Modelled from the spec: the position as a single integer. -/
def Position.toInt (cfg : Config) (p : Position) : Int :=
  (p.termId : Int) * cfg.termCapacity + p.termOffset

/-- Modelled from the spec: the subscriber's handle, with its last-consumed
position. -/
structure Subscription where
  closed : Bool
  position : Position

/-- Modelled from the spec: the negative codes of `Offer`. -/
def NOT_CONNECTED : Int := -1

/-- Modelled from the spec: see `NOT_CONNECTED`. -/
def BACK_PRESSURED : Int := -2

/-- Modelled from the spec: see `NOT_CONNECTED`. -/
def ADMIN_ACTION : Int := -3

/-- Modelled from the spec: see `NOT_CONNECTED`. -/
def PUBLICATION_CLOSED : Int := -4

/-- What an `Offer` finds outside the log: whether the publication is connected
and whether rotation to the next term is possible. -/
structure Conditions where
  connected : Bool
  canRotate : Bool

/-- Modelled from the spec: the stores of a successful `Offer` into term `tm` at
offset `off`: the header fields and the payload into the reserved range, then
the real `frameLength`; the tail has been moved past the aligned frame. -/
def writeFrame (cfg : Config) (pub : Publication) (termId : Nat) (tm : Term) (off : Nat)
    (payload : List Byte) : Term :=
  { tail := off + align (cfg.headerSize + payload.length) cfg.frameAlignment
    header := fun o =>
      if o = off then
        { frameLength := cfg.headerSize + payload.length, flags := 0, type := FrameType.DATA,
          termOffset := off, sessionId := pub.sessionId, streamId := pub.streamId,
          termId := termId, reservedValue := 0 }
      else tm.header o
    bytes := fun o =>
      if off + cfg.headerSize ≤ o ∧ o < off + cfg.headerSize + payload.length then
        payload.getD (o - (off + cfg.headerSize)) 0
      else tm.bytes o }

/-- Modelled from the spec: the stores of an `Offer` whose reservation exceeds
the term capacity: the tail has been moved past the capacity and a padding
frame covers the remainder of the term, when there is one. -/
def writePadding (cfg : Config) (pub : Publication) (termId : Nat) (tm : Term) (off : Nat)
    (required : Nat) : Term :=
  { tail := off + required
    header := fun o =>
      if o = off ∧ off < cfg.termCapacity then
        { frameLength := cfg.termCapacity - off, flags := 0, type := FrameType.PAD,
          termOffset := off, sessionId := pub.sessionId, streamId := pub.streamId,
          termId := termId, reservedValue := 0 }
      else tm.header o
    bytes := tm.bytes }

/-- Modelled from the spec: the reservation of an `Offer` in term `termId` and
what follows it. -/
def appendTo (cfg : Config) (c : Conditions) (pub : Publication) (log : Log) (termId : Nat)
    (payload : List Byte) : Int × Publication × Log :=
  let tm := log.term termId
  let required := align (cfg.headerSize + payload.length) cfg.frameAlignment
  let off := tm.tail
  if cfg.termCapacity < off + required then
    (if c.canRotate then ADMIN_ACTION else BACK_PRESSURED,
      { pub with activeTermId := termId },
      log.setTerm termId (writePadding cfg pub termId tm off required))
  else
    (Position.toInt cfg { termId := termId, termOffset := off + required },
      { pub with activeTermId := termId },
      log.setTerm termId (writeFrame cfg pub termId tm off payload))

/-- Modelled from the spec: `Publication.Offer(payload)`.  A closed publication
returns PUBLICATION_CLOSED.  When the active term has been exhausted by an
earlier offer, this offer completes the rotation and appends to the next term,
or returns BACK_PRESSURED while rotation is not possible. -/
def Offer (cfg : Config) (c : Conditions) (payload : List Byte) (pub : Publication) (log : Log) :
    Int × Publication × Log :=
  if pub.closed then (PUBLICATION_CLOSED, pub, log)
  else if !c.connected then (NOT_CONNECTED, pub, log)
  else if cfg.termCapacity < (log.term pub.activeTermId).tail then
    if c.canRotate then appendTo cfg c pub log (pub.activeTermId + 1) payload
    else (BACK_PRESSURED, pub, log)
  else appendTo cfg c pub log pub.activeTermId payload

/-- Modelled from the spec: `Publication.Close()`. -/
def Publication.Close (pub : Publication) : Publication := { pub with closed := true }

/-- The arguments of one `FragmentHandler` invocation. -/
structure Fragment where
  buffer : Nat → Byte
  offset : Nat
  length : Nat
  header : FrameHeader

/-- The bytes that `(buffer, offset, length)` denotes. -/
def Fragment.bytes (f : Fragment) : List Byte :=
  (List.range f.length).map (fun i => f.buffer (f.offset + i))

/-- Modelled from the spec: the arguments with which the handler is invoked
for the frame at `pos`: the term's buffer, the offset and the length of the
frame's body, and the frame's header. -/
def fragmentAt (cfg : Config) (log : Log) (pos : Position) : Fragment :=
  { buffer := (log.term pos.termId).bytes
    offset := pos.termOffset + cfg.headerSize
    length := ((log.term pos.termId).header pos.termOffset).frameLength - cfg.headerSize
    header := (log.term pos.termId).header pos.termOffset }

/-- Modelled from the spec: the scan of one `Poll`, with `n` fragments still
allowed.  At the end of the term, or at a padding frame, the position rolls to
the next term and the scan of this call ends; a frame whose `frameLength` is
still 0 ends it too; any other frame is handed to the handler with the offset
and the length of its body, and the scan moves on by the aligned frame
length. -/
def scan {σ : Type} (cfg : Config) (log : Log) (h : Fragment → σ → σ) :
    Nat → Position → Nat → σ → Nat × Position × σ
  | 0, pos, count, st => (count, pos, st)
  | n + 1, pos, count, st =>
    if cfg.termCapacity ≤ pos.termOffset then
      (count, { termId := pos.termId + 1, termOffset := 0 }, st)
    else
      let hdr := (log.term pos.termId).header pos.termOffset
      if hdr.frameLength = 0 then (count, pos, st)
      else if hdr.type = FrameType.PAD then
        (count, { termId := pos.termId + 1, termOffset := 0 }, st)
      else
        scan cfg log h n
          { termId := pos.termId
            termOffset := pos.termOffset + align hdr.frameLength cfg.frameAlignment }
          (count + 1) (h (fragmentAt cfg log pos) st)

/-- Modelled from the spec: `Subscription.Poll(handler, fragmentLimit)`: the
number of fragments delivered, or the negative closed code. -/
def Poll {σ : Type} (cfg : Config) (log : Log) (closedCode : Int) (h : Fragment → σ → σ)
    (fragmentLimit : Nat) (sub : Subscription) (st : σ) : Int × Subscription × σ :=
  if sub.closed then (closedCode, sub, st)
  else
    let r := scan cfg log h fragmentLimit sub.position 0 st
    ((r.1 : Int), { sub with position := r.2.1 }, r.2.2)

/-- A step of the publisher: an `Offer` under given conditions, or `Close`. -/
inductive PubOp where
  | offer (c : Conditions) (payload : List Byte)
  | close

/-- Runs the publisher's steps in order; returns the final handle and log and
the payloads of the offers that succeeded (returned a position), in order. -/
def publish (cfg : Config) : List PubOp → Publication → Log → List (List Byte) →
    Publication × Log × List (List Byte)
  | [], pub, log, sent => (pub, log, sent)
  | PubOp.offer c payload :: ops, pub, log, sent =>
    let r := Offer cfg c payload pub log
    publish cfg ops r.2.1 r.2.2 (if 0 < r.1 then sent ++ [payload] else sent)
  | PubOp.close :: ops, pub, log, sent => publish cfg ops pub.Close log sent

/-- Polls `n` times in a row. -/
def pollTimes {σ : Type} (cfg : Config) (log : Log) (closedCode : Int) (h : Fragment → σ → σ)
    (fragmentLimit : Nat) : Nat → Subscription → σ → Subscription × σ
  | 0, sub, st => (sub, st)
  | n + 1, sub, st =>
    let r := Poll cfg log closedCode h fragmentLimit sub st
    pollTimes cfg log closedCode h fragmentLimit n r.2.1 r.2.2

/-- The handler that keeps the arguments of every invocation, oldest first. -/
def record (f : Fragment) (seen : List Fragment) : List Fragment := seen ++ [f]

/-- A fresh publication on an empty log. -/
def Publication.fresh (sessionId streamId : Int) : Publication :=
  { closed := false, sessionId := sessionId, streamId := streamId, activeTermId := 0 }

/-- A fresh subscription, at the start of the log. -/
def Subscription.fresh : Subscription :=
  { closed := false, position := { termId := 0, termOffset := 0 } }

/-- The configuration of the specification's example: header 32, alignment 32,
term capacity 1024. -/
def exampleConfig : Config := { headerSize := 32, frameAlignment := 32, termCapacity := 1024 }

/-! ## What a log holds, as seen by a reader -/

/-- What a reader meets when it walks a log: the frame of a payload, or the end
of a term. -/
inductive Item where
  | data (payload : List Byte)
  | roll

/-- The payloads among the items, in order. -/
def dataOf : List Item → List (List Byte)
  | [] => []
  | Item.data x :: xs => x :: dataOf xs
  | Item.roll :: xs => dataOf xs

/-- From position `p` the log holds exactly the items `xs`, one after the
other, and they end at position `e`: a data item is a committed DATA frame
holding the payload, a roll is the end of the term's capacity or a committed
padding frame. -/
def Laid (cfg : Config) (log : Log) : Position → List Item → Position → Prop
  | p, [], e => p = e
  | p, Item.data x :: xs, e =>
    p.termOffset < cfg.termCapacity
      ∧ ((log.term p.termId).header p.termOffset).frameLength = cfg.headerSize + x.length
      ∧ ((log.term p.termId).header p.termOffset).type = FrameType.DATA
      ∧ (∀ i, i < x.length →
          (log.term p.termId).bytes (p.termOffset + cfg.headerSize + i) = x.getD i 0)
      ∧ Laid cfg log
          { termId := p.termId
            termOffset := p.termOffset + align (cfg.headerSize + x.length) cfg.frameAlignment }
          xs e
  | p, Item.roll :: xs, e =>
    (cfg.termCapacity ≤ p.termOffset
        ∨ (((log.term p.termId).header p.termOffset).frameLength ≠ 0
          ∧ ((log.term p.termId).header p.termOffset).type = FrameType.PAD))
      ∧ Laid cfg log { termId := p.termId + 1, termOffset := 0 } xs e

/-- Position `(t, o)` lies strictly before `e`. -/
def Before (t o : Nat) (e : Position) : Prop :=
  t < e.termId ∨ (t = e.termId ∧ o < e.termOffset)

/-- Nothing is committed at or after position `e`. -/
def Quiet (log : Log) (e : Position) : Prop :=
  ∀ t o, ¬ Before t o e → ((log.term t).header o).frameLength = 0

/-- The position at which the next frame of the publication will be written. -/
def endPos (cfg : Config) (pub : Publication) (log : Log) : Position :=
  if cfg.termCapacity < (log.term pub.activeTermId).tail then
    { termId := pub.activeTermId + 1, termOffset := 0 }
  else { termId := pub.activeTermId, termOffset := (log.term pub.activeTermId).tail }

/-- The invariant of the publisher: the log holds `items` from its start to the
publication's end position, nothing is committed from there on, and no later
term has been appended to. -/
structure Inv (cfg : Config) (pub : Publication) (log : Log) (items : List Item) : Prop where
  laid : Laid cfg log { termId := 0, termOffset := 0 } items (endPos cfg pub log)
  quiet : Quiet log (endPos cfg pub log)
  tails : ∀ t, pub.activeTermId < t → (log.term t).tail = 0

/-- What a reader at `pos` still has to read: the items, then nothing. -/
def Pending (cfg : Config) (log : Log) (pos : Position) (items : List Item) : Prop :=
  ∃ e, Laid cfg log pos items e ∧ Quiet log e

/-- Three publisher steps on the example configuration: a 40-byte message, an
offer made while not connected, and an empty message. -/
def exampleOps : List PubOp :=
  [PubOp.offer { connected := true, canRotate := true } (List.replicate 40 7),
   PubOp.offer { connected := false, canRotate := true } [1, 2, 3],
   PubOp.offer { connected := true, canRotate := true } []]

/-- The specification's example of a term being filled: `n` offers of a 32-byte
payload, each an aligned frame of 64 bytes, on the example configuration. -/
def fillOps (n : Nat) : List PubOp :=
  List.replicate n (PubOp.offer { connected := true, canRotate := true } (List.replicate 32 0))

end LogBuffer

/-! # Theorems -/

namespace Ping

variable {H : Type}

/-! ## `Offer`, `Poll` and the handler, field by field -/

theorem handler_hist (ops : Histogram H) (env : Env) (f : Fragment) (s : State H) :
    (handler ops env f s).hist
      = ops.RecordValue s.hist (wrapInt64 (env.clock s.clockReads - f.buffer.GetInt64 f.offset)) := by
  unfold handler now logf
  cases env.debug <;> rfl

theorem handler_frame (ops : Histogram H) (env : Env) (f : Fragment) (s : State H) :
    (handler ops env f s).offerCalls = s.offerCalls
      ∧ (handler ops env f s).pollCalls = s.pollCalls
      ∧ (handler ops env f s).srcStamp = s.srcStamp
      ∧ (handler ops env f s).clockReads = s.clockReads + 1 := by
  unfold handler now logf
  cases env.debug <;> simp

theorem foldl_handler_frame (ops : Histogram H) (env : Env) (fs : List Fragment) (s : State H) :
    (fs.foldl (fun st f => handler ops env f st) s).offerCalls = s.offerCalls
      ∧ (fs.foldl (fun st f => handler ops env f st) s).pollCalls = s.pollCalls
      ∧ (fs.foldl (fun st f => handler ops env f st) s).srcStamp = s.srcStamp := by
  induction fs generalizing s with
  | nil => simp
  | cons f fs ih =>
    obtain ⟨h1, h2, h3, _⟩ := handler_frame ops env f s
    simp only [List.foldl_cons]
    obtain ⟨i1, i2, i3⟩ := ih (handler ops env f s)
    exact ⟨i1.trans h1, i2.trans h2, i3.trans h3⟩

theorem Recorded.refl (ops : Histogram H) (env : Env) (h : H) : Recorded ops env h h 0 :=
  ⟨[], rfl, rfl, fun _ hv => absurd hv (List.not_mem_nil _)⟩

theorem Recorded.trans {ops : Histogram H} {env : Env} {h h' h'' : H} {a b : Int}
    (h1 : Recorded ops env h h' a) (h2 : Recorded ops env h' h'' b) :
    Recorded ops env h h'' (a + b) := by
  obtain ⟨vs, e1, l1, v1⟩ := h1
  obtain ⟨ws, e2, l2, v2⟩ := h2
  refine ⟨vs ++ ws, ?_, ?_, ?_⟩
  · rw [List.foldl_append, ← e1, e2]
  · rw [List.length_append]
    push_cast
    rw [l1, l2]
  · intro v hv
    rcases List.mem_append.mp hv with hv | hv
    · exact v1 v hv
    · exact v2 v hv

/-- Under the counting laws of the library, recording the values `vs` raises
the total count by the number of them that the histogram accepts. -/
theorem count_foldl_recordValue {ops : Histogram H} {accepts : Int → Bool}
    (hc : ops.Counts accepts) (h : H) (vs : List Int) :
    ops.TotalCount (vs.foldl ops.RecordValue h)
      = ops.TotalCount h + ((vs.filter accepts).length : Int) := by
  induction vs generalizing h with
  | nil => simp
  | cons v vs ih =>
    simp only [List.foldl_cons, List.filter_cons]
    rw [ih]
    cases hv : accepts v
    · rw [hc.reject h v hv]
      simp
    · rw [hc.record h v hv]
      simp only [if_true, List.length_cons]
      push_cast
      ring

theorem foldl_handler_recorded (ops : Histogram H) (env : Env) (fs : List Fragment)
    (s : State H) :
    Recorded ops env s.hist (fs.foldl (fun st f => handler ops env f st) s).hist
      (fs.length : Int) := by
  induction fs generalizing s with
  | nil => exact Recorded.refl ops env s.hist
  | cons f fs ih =>
    simp only [List.foldl_cons, List.length_cons]
    have h1 : Recorded ops env s.hist (handler ops env f s).hist 1 :=
      ⟨[wrapInt64 (env.clock s.clockReads - f.buffer.GetInt64 f.offset)],
        handler_hist ops env f s, rfl, fun v hv => by
          rw [List.mem_singleton] at hv
          exact ⟨s.clockReads, f, hv⟩⟩
    have h2 := Recorded.trans h1 (ih (handler ops env f s))
    have e : (1 : Int) + (fs.length : Int) = ((fs.length + 1 : Nat) : Int) := by
      push_cast
      ring
    rw [e] at h2
    exact h2

theorem Poll_fst (env : Env) (h : Fragment → State H → State H) (s : State H) :
    (Poll env h 10 s).1 = pollResult env s.pollCalls := by
  unfold Poll pollResult
  cases env.poll s.pollCalls <;> rfl

theorem Poll_frame (ops : Histogram H) (env : Env) (s : State H) :
    (Poll env (handler ops env) 10 s).2.pollCalls = s.pollCalls + 1
      ∧ (Poll env (handler ops env) 10 s).2.offerCalls = s.offerCalls
      ∧ (Poll env (handler ops env) 10 s).2.srcStamp = s.srcStamp := by
  unfold Poll
  cases env.poll s.pollCalls with
  | closed => simp
  | ready frags =>
    obtain ⟨h1, h2, h3⟩ := foldl_handler_frame ops env (frags.take (10 : Int).toNat)
      { s with pollCalls := s.pollCalls + 1 }
    exact ⟨h2, h1, h3⟩

/-- A `Poll` records one value per fragment it delivers: as many as its result
when that is positive, none otherwise. -/
theorem Poll_recorded (ops : Histogram H) (env : Env) (s : State H) :
    Recorded ops env s.hist (Poll env (handler ops env) 10 s).2.hist
      (max (pollResult env s.pollCalls) 0) := by
  unfold Poll pollResult
  cases env.poll s.pollCalls with
  | closed =>
    simp only []
    rw [max_eq_right (le_of_lt env.closedCode_neg)]
    exact Recorded.refl ops env s.hist
  | ready frags =>
    simp only []
    have h10 : (10 : Int).toNat = 10 := rfl
    rw [h10, max_eq_left (Int.ofNat_nonneg _)]
    exact foldl_handler_recorded ops env (frags.take 10) { s with pollCalls := s.pollCalls + 1 }

theorem pollResult_le (env : Env) (n : Nat) : pollResult env n ≤ 10 := by
  unfold pollResult
  cases env.poll n with
  | closed => exact le_trans (le_of_lt env.closedCode_neg) (by decide)
  | ready frags =>
    have : (frags.take 10).length ≤ 10 := by simp [List.length_take]
    simp only []
    exact_mod_cast this

/-! ## The retry loops: when they exit and when they spin -/

theorem warmupOfferLoop_exit (env : Env) (fuel k : Nat) (s : State H)
    (hretry : ∀ j, j < k → env.offer (s.offerCalls + j) ≤ 0)
    (hstop : 0 < env.offer (s.offerCalls + k)) (hfuel : k < fuel) :
    ∃ s', warmupOfferLoop env fuel s = some s' ∧ s'.offerCalls = s.offerCalls + k + 1
      ∧ OfferFrame s s' := by
  induction fuel generalizing s k with
  | zero => omega
  | succ fuel ih =>
    cases k with
    | zero =>
      simp only [Nat.add_zero] at hstop
      have hval : warmupOfferLoop env (fuel + 1) s
          = some (if env.debug then logf ("Failed offer " ++ toString (env.offer s.offerCalls))
              { s with offerCalls := s.offerCalls + 1 }
            else { s with offerCalls := s.offerCalls + 1 }) := by
        simp only [warmupOfferLoop, Offer, gt_iff_lt, hstop, if_true]
      refine ⟨_, hval, ?_, ?_⟩
      · cases env.debug <;> simp [logf]
      · cases env.debug <;> simp [logf, OfferFrame]
    | succ k =>
      have h0 : ¬ 0 < env.offer s.offerCalls := not_lt.mpr (by simpa using hretry 0 (by omega))
      simp only [warmupOfferLoop, Offer, gt_iff_lt, h0, if_false]
      cases hd : env.debug
      · obtain ⟨s', h1, h2, h3⟩ := ih k { s with offerCalls := s.offerCalls + 1 }
          (fun j hj => by
            have := hretry (j + 1) (by omega)
            simpa [Nat.add_assoc, Nat.add_comm 1 j] using this)
          (by simpa [Nat.add_assoc, Nat.add_comm 1 k] using hstop) (by omega)
        exact ⟨s', by simpa using h1, by simpa [Nat.add_assoc, Nat.add_comm 1 k] using h2, h3⟩
      · obtain ⟨s', h1, h2, h3⟩ := ih k
          (logf ("Failed offer " ++ toString (env.offer s.offerCalls))
            { s with offerCalls := s.offerCalls + 1 })
          (fun j hj => by
            have := hretry (j + 1) (by omega)
            simpa [logf, Nat.add_assoc, Nat.add_comm 1 j] using this)
          (by simpa [logf, Nat.add_assoc, Nat.add_comm 1 k] using hstop) (by omega)
        exact ⟨s', by simpa using h1,
          by simpa [logf, Nat.add_assoc, Nat.add_comm 1 k] using h2, by simpa [logf, OfferFrame] using h3⟩

theorem warmupOfferLoop_spin (env : Env) (fuel : Nat) (s : State H)
    (hretry : ∀ j, j < fuel → env.offer (s.offerCalls + j) ≤ 0) :
    warmupOfferLoop env fuel s = none := by
  induction fuel generalizing s with
  | zero => rfl
  | succ fuel ih =>
    have h0 : ¬ 0 < env.offer s.offerCalls := not_lt.mpr (by simpa using hretry 0 (by omega))
    simp only [warmupOfferLoop, Offer, gt_iff_lt, h0, if_false]
    apply ih
    intro j hj
    have := hretry (j + 1) (by omega)
    cases env.debug <;> simpa [logf, Nat.add_assoc, Nat.add_comm 1 j] using this

theorem steadyOfferLoop_exit (env : Env) (fuel k : Nat) (s : State H)
    (hretry : ∀ j, j < k → env.offer (s.offerCalls + j) < 0)
    (hstop : 0 ≤ env.offer (s.offerCalls + k)) (hfuel : k < fuel) :
    ∃ s', steadyOfferLoop env fuel s = some s' ∧ s'.offerCalls = s.offerCalls + k + 1
      ∧ OfferFrame s s' := by
  induction fuel generalizing s k with
  | zero => omega
  | succ fuel ih =>
    cases k with
    | zero =>
      simp only [Nat.add_zero] at hstop
      have hval : steadyOfferLoop env (fuel + 1) s
          = some { s with offerCalls := s.offerCalls + 1 } := by
        simp only [steadyOfferLoop, Offer, not_lt.mpr hstop, if_false]
      exact ⟨_, hval, rfl, rfl, rfl, rfl, rfl⟩
    | succ k =>
      have h0 : env.offer s.offerCalls < 0 := by simpa using hretry 0 (by omega)
      simp only [steadyOfferLoop, Offer, h0, if_true]
      obtain ⟨s', h1, h2, h3⟩ := ih k { s with offerCalls := s.offerCalls + 1 }
        (fun j hj => by
          have := hretry (j + 1) (by omega)
          simpa [Nat.add_assoc, Nat.add_comm 1 j] using this)
        (by simpa [Nat.add_assoc, Nat.add_comm 1 k] using hstop) (by omega)
      exact ⟨s', h1, by simpa [Nat.add_assoc, Nat.add_comm 1 k] using h2, h3⟩

theorem steadyOfferLoop_spin (env : Env) (fuel : Nat) (s : State H)
    (hretry : ∀ j, j < fuel → env.offer (s.offerCalls + j) < 0) :
    steadyOfferLoop env fuel s = none := by
  induction fuel generalizing s with
  | zero => rfl
  | succ fuel ih =>
    have h0 : env.offer s.offerCalls < 0 := by simpa using hretry 0 (by omega)
    simp only [steadyOfferLoop, Offer, h0, if_true]
    apply ih
    intro j hj
    have := hretry (j + 1) (by omega)
    simpa [Nat.add_assoc, Nat.add_comm 1 j] using this

/-- One iteration of the warm-up poll loop, up to the test of `ret`. -/
theorem warmupPollLoop_succ (ops : Histogram H) (env : Env) (fuel : Nat) (s : State H) :
    ∃ s1 : State H, s1.pollCalls = s.pollCalls + 1 ∧ s1.offerCalls = s.offerCalls
      ∧ s1.srcStamp = s.srcStamp
      ∧ s1.hist = (Poll env (handler ops env) 10 s).2.hist
      ∧ warmupPollLoop ops env (fuel + 1) s
        = if 0 < pollResult env s.pollCalls then some s1 else warmupPollLoop ops env fuel s1 := by
  obtain ⟨h1, h2, h3⟩ := Poll_frame ops env s
  have hr := Poll_fst env (handler ops env) s
  by_cases hd : env.debug = true ∧ (Poll env (handler ops env) 10 s).1 < 0
  · refine ⟨logf ("Poll returned " ++ toString (Poll env (handler ops env) 10 s).1)
      (Poll env (handler ops env) 10 s).2, h1, h2, h3, rfl, ?_⟩
    rw [← hr]
    simp only [warmupPollLoop, hd.1, hd.2, if_true, gt_iff_lt]
  · refine ⟨(Poll env (handler ops env) 10 s).2, h1, h2, h3, rfl, ?_⟩
    rw [← hr]
    simp only [warmupPollLoop, gt_iff_lt]
    by_cases hdb : env.debug = true
    · have : ¬ (Poll env (handler ops env) 10 s).1 < 0 := fun h => hd ⟨hdb, h⟩
      simp only [hdb, this, if_true, if_false]
    · simp only [hdb, Bool.false_eq_true, if_false]

/-- One iteration of the steady-state poll loop. -/
theorem steadyPollLoop_succ (ops : Histogram H) (env : Env) (fuel : Nat) (s : State H) :
    ∃ s1 : State H, s1.pollCalls = s.pollCalls + 1 ∧ s1.offerCalls = s.offerCalls
      ∧ s1.srcStamp = s.srcStamp
      ∧ s1.hist = (Poll env (handler ops env) 10 s).2.hist
      ∧ steadyPollLoop ops env (fuel + 1) s
        = if 0 < pollResult env s.pollCalls then some s1 else steadyPollLoop ops env fuel s1 := by
  obtain ⟨h1, h2, h3⟩ := Poll_frame ops env s
  have hr := Poll_fst env (handler ops env) s
  refine ⟨(Poll env (handler ops env) 10 s).2, h1, h2, h3, rfl, ?_⟩
  rw [← hr]
  simp only [steadyPollLoop]
  by_cases hp : (Poll env (handler ops env) 10 s).1 ≤ 0
  · simp only [hp, if_true, not_lt.mpr hp, if_false]
  · simp only [hp, if_false, not_le.mp hp, if_true]

theorem warmupPollLoop_like (ops : Histogram H) (env : Env) :
    PollLoopLike ops env (warmupPollLoop ops env) :=
  ⟨fun _ => rfl, warmupPollLoop_succ ops env⟩

theorem steadyPollLoop_like (ops : Histogram H) (env : Env) :
    PollLoopLike ops env (steadyPollLoop ops env) :=
  ⟨fun _ => rfl, steadyPollLoop_succ ops env⟩

theorem pollLoop_exit (ops : Histogram H) (env : Env) (L : Nat → State H → Option (State H))
    (hL : PollLoopLike ops env L) (fuel k : Nat) (s : State H)
    (hretry : ∀ j, j < k → pollResult env (s.pollCalls + j) ≤ 0)
    (hstop : 0 < pollResult env (s.pollCalls + k)) (hfuel : k < fuel) :
    ∃ s', L fuel s = some s' ∧ s'.pollCalls = s.pollCalls + k + 1
      ∧ s'.offerCalls = s.offerCalls ∧ s'.srcStamp = s.srcStamp
      ∧ Recorded ops env s.hist s'.hist (pollResult env (s.pollCalls + k)) := by
  induction fuel generalizing s k with
  | zero => omega
  | succ fuel ih =>
    obtain ⟨s1, p1, p2, p3, p4, p5⟩ := hL.2 fuel s
    have hrec := Poll_recorded ops env s
    rw [← p4] at hrec
    cases k with
    | zero =>
      simp only [Nat.add_zero] at hstop
      rw [if_pos hstop] at p5
      rw [max_eq_left (le_of_lt hstop)] at hrec
      exact ⟨s1, p5, by omega, p2, p3, by simpa using hrec⟩
    | succ k =>
      have h0 : pollResult env s.pollCalls ≤ 0 := by simpa using hretry 0 (by omega)
      rw [if_neg (not_lt.mpr h0)] at p5
      rw [max_eq_right h0] at hrec
      obtain ⟨s', q1, q2, q3, q4, q5⟩ := ih k s1
        (fun j hj => by
          have := hretry (j + 1) (by omega)
          rw [p1]
          simpa [Nat.add_assoc, Nat.add_comm 1 j] using this)
        (by rw [p1]; simpa [Nat.add_assoc, Nat.add_comm 1 k] using hstop) (by omega)
      refine ⟨s', p5.trans q1, by omega, q3.trans p2, q4.trans p3, ?_⟩
      have := Recorded.trans hrec q5
      rw [p1] at this
      simpa [Nat.add_assoc, Nat.add_comm 1 k] using this

theorem pollLoop_spin (ops : Histogram H) (env : Env) (L : Nat → State H → Option (State H))
    (hL : PollLoopLike ops env L) (fuel : Nat) (s : State H)
    (hretry : ∀ j, j < fuel → pollResult env (s.pollCalls + j) ≤ 0) :
    L fuel s = none := by
  induction fuel generalizing s with
  | zero => exact hL.1 s
  | succ fuel ih =>
    obtain ⟨s1, p1, _, _, _, p5⟩ := hL.2 fuel s
    have h0 : pollResult env s.pollCalls ≤ 0 := by simpa using hretry 0 (by omega)
    rw [if_neg (not_lt.mpr h0)] at p5
    rw [p5]
    apply ih
    intro j hj
    have := hretry (j + 1) (by omega)
    rw [p1]
    simpa [Nat.add_assoc, Nat.add_comm 1 j] using this

/-- Within any bound, either some index is the first to satisfy `p`, or none
below the bound satisfies it. -/
theorem first_or_none (p : Nat → Prop) (fuel : Nat) :
    (∃ k, k < fuel ∧ p k ∧ ∀ j, j < k → ¬ p j) ∨ ∀ j, j < fuel → ¬ p j := by
  induction fuel with
  | zero => exact Or.inr (fun j hj => absurd hj (Nat.not_lt_zero j))
  | succ fuel ih =>
    rcases ih with ⟨k, hk, hp, hmin⟩ | hnone
    · exact Or.inl ⟨k, by omega, hp, hmin⟩
    · by_cases hp : p fuel
      · exact Or.inl ⟨fuel, by omega, hp, hnone⟩
      · refine Or.inr (fun j hj => ?_)
        rcases Nat.lt_succ_iff_lt_or_eq.mp hj with h | h
        · exact hnone j h
        · exact h ▸ hp

theorem sumPositive_add (env : Env) (a m n : Nat) :
    sumPositive env a (m + n) = sumPositive env a m + sumPositive env (a + m) n := by
  induction m generalizing a with
  | zero => simp [sumPositive]
  | succ m ih =>
    have : m + 1 + n = (m + n) + 1 := by omega
    rw [this]
    simp only [sumPositive]
    rw [ih (a + 1)]
    have h2 : a + 1 + m = a + (m + 1) := by omega
    rw [h2]
    ring

theorem sumPositive_retries (env : Env) (a k : Nat)
    (hretry : ∀ j, j < k → pollResult env (a + j) ≤ 0) : sumPositive env a k = 0 := by
  induction k generalizing a with
  | zero => rfl
  | succ k ih =>
    simp only [sumPositive]
    have h0 : pollResult env a ≤ 0 := by simpa using hretry 0 (by omega)
    rw [max_eq_right h0, ih (a + 1) (fun j hj => by
      have := hretry (j + 1) (by omega)
      simpa [Nat.add_assoc, Nat.add_comm 1 j] using this)]
    rfl

theorem sumPositive_loop (env : Env) (a k : Nat)
    (hretry : ∀ j, j < k → pollResult env (a + j) ≤ 0) (hstop : 0 < pollResult env (a + k)) :
    sumPositive env a (k + 1) = pollResult env (a + k) := by
  rw [sumPositive_add, sumPositive_retries env a k hretry]
  simp [sumPositive, max_eq_left (le_of_lt hstop)]

theorem pollLoop_iteration (ops : Histogram H) (env : Env)
    (L : Nat → State H → Option (State H)) (hL : PollLoopLike ops env L) (B : Nat)
    (hpoll : ∀ n, ∃ k, k < B ∧ 0 < pollResult env (n + k)) (s : State H) :
    ∃ s', L B s = some s' ∧ IterationSpec ops env s s' := by
  obtain ⟨k0, hk0, hp0⟩ := hpoll s.pollCalls
  rcases first_or_none (fun j => 0 < pollResult env (s.pollCalls + j)) B with
    ⟨k, hk, hp, hmin⟩ | hnone
  · have hretry : ∀ j, j < k → pollResult env (s.pollCalls + j) ≤ 0 :=
      fun j hj => not_lt.mp (hmin j hj)
    obtain ⟨s', h1, h2, _, _, h5⟩ := pollLoop_exit ops env L hL B k s hretry hp hk
    have hsum : sumPositive env s.pollCalls (s'.pollCalls - s.pollCalls)
        = pollResult env (s.pollCalls + k) := by
      have : s'.pollCalls - s.pollCalls = k + 1 := by omega
      rw [this, sumPositive_loop env _ k hretry hp]
    refine ⟨s', h1, by omega, ?_, ?_, ?_⟩
    · rw [hsum]
      exact h5
    · rw [hsum]
      exact hp
    · rw [hsum]
      exact pollResult_le env (s.pollCalls + k)
  · exact absurd hp0 (hnone k0 hk0)

theorem warmupOfferLoop_total (env : Env) (B : Nat)
    (hoffer : ∀ n, ∃ k, k < B ∧ 0 < env.offer (n + k)) (s : State H) :
    ∃ s', warmupOfferLoop env B s = some s' ∧ OfferFrame s s' := by
  obtain ⟨k0, hk0, hp0⟩ := hoffer s.offerCalls
  rcases first_or_none (fun j => 0 < env.offer (s.offerCalls + j)) B with
    ⟨k, hk, hp, hmin⟩ | hnone
  · obtain ⟨s', h1, _, h3⟩ := warmupOfferLoop_exit env B k s
      (fun j hj => not_lt.mp (hmin j hj)) hp hk
    exact ⟨s', h1, h3⟩
  · exact absurd hp0 (hnone k0 hk0)

theorem steadyOfferLoop_total (env : Env) (B : Nat)
    (hoffer : ∀ n, ∃ k, k < B ∧ 0 < env.offer (n + k)) (s : State H) :
    ∃ s', steadyOfferLoop env B s = some s' ∧ OfferFrame s s' := by
  obtain ⟨k0, hk0, hp0⟩ := hoffer s.offerCalls
  rcases first_or_none (fun j => 0 ≤ env.offer (s.offerCalls + j)) B with
    ⟨k, hk, hp, hmin⟩ | hnone
  · obtain ⟨s', h1, _, h3⟩ := steadyOfferLoop_exit env B k s
      (fun j hj => not_le.mp (hmin j hj)) hp hk
    exact ⟨s', h1, h3⟩
  · exact absurd (le_of_lt hp0) (hnone k0 hk0)

theorem IterationSpec.of_offerFrame (ops : Histogram H) (env : Env) (s s1 s2 s' : State H)
    (h1 : s1.hist = s.hist ∧ s1.pollCalls = s.pollCalls) (h2 : OfferFrame s1 s2)
    (h3 : IterationSpec ops env s2 s') : IterationSpec ops env s s' := by
  obtain ⟨a1, a2⟩ := h1
  obtain ⟨b1, b2, _, _⟩ := h2
  unfold IterationSpec at h3 ⊢
  rw [b1, b2, a1, a2] at h3
  exact h3

theorem stamp_done (env : Env) (hsize : 8 ≤ env.size) (s : State H) :
    ∃ s1 : State H, stamp env s = Outcome.done s1 ∧ s1.hist = s.hist
      ∧ s1.pollCalls = s.pollCalls := by
  refine ⟨{ s with clockReads := s.clockReads + 1, srcStamp := env.clock s.clockReads }, ?_,
    rfl, rfl⟩
  simp only [stamp, now, not_lt.mpr hsize, if_false]

theorem warmupIteration_spec (ops : Histogram H) (env : Env) (B : Nat)
    (hsize : 8 ≤ env.size) (hoffer : ∀ n, ∃ k, k < B ∧ 0 < env.offer (n + k))
    (hpoll : ∀ n, ∃ k, k < B ∧ 0 < pollResult env (n + k)) (s : State H) :
    ∃ s', warmupIteration ops env B s = Outcome.done s' ∧ IterationSpec ops env s s' := by
  obtain ⟨s1, h1, f1⟩ := stamp_done env hsize s
  obtain ⟨s2, h2, f2⟩ := warmupOfferLoop_total env B hoffer s1
  obtain ⟨s', h3, f3⟩ := pollLoop_iteration ops env _ (warmupPollLoop_like ops env) B hpoll s2
  refine ⟨s', ?_, IterationSpec.of_offerFrame ops env s s1 s2 s' f1 f2 f3⟩
  simp only [warmupIteration, h1, Outcome.bind, h2, Outcome.ofLoop, h3]

theorem steadyIteration_spec (ops : Histogram H) (env : Env) (B : Nat)
    (hsize : 8 ≤ env.size) (hoffer : ∀ n, ∃ k, k < B ∧ 0 < env.offer (n + k))
    (hpoll : ∀ n, ∃ k, k < B ∧ 0 < pollResult env (n + k)) (s : State H) :
    ∃ s', steadyIteration ops env B s = Outcome.done s' ∧ IterationSpec ops env s s' := by
  obtain ⟨s1, h1, f1⟩ := stamp_done env hsize s
  obtain ⟨s2, h2, f2⟩ := steadyOfferLoop_total env B hoffer s1
  obtain ⟨s', h3, f3⟩ := pollLoop_iteration ops env _ (steadyPollLoop_like ops env) B hpoll s2
  refine ⟨s', ?_, IterationSpec.of_offerFrame ops env s s1 s2 s' f1 f2 f3⟩
  simp only [steadyIteration, h1, Outcome.bind, h2, Outcome.ofLoop, h3]

/-- A `for` loop of `n` iterations, each of which meets `IterationSpec`. -/
theorem forLoop_spec (ops : Histogram H) (env : Env) (body : State H → Outcome (State H))
    (hbody : ∀ s, ∃ s', body s = Outcome.done s' ∧ IterationSpec ops env s s') (n : Nat)
    (s : State H) :
    ∃ s', forLoop body n s = Outcome.done s' ∧ s.pollCalls ≤ s'.pollCalls
      ∧ Recorded ops env s.hist s'.hist
          (sumPositive env s.pollCalls (s'.pollCalls - s.pollCalls))
      ∧ (n : Int) ≤ sumPositive env s.pollCalls (s'.pollCalls - s.pollCalls)
      ∧ sumPositive env s.pollCalls (s'.pollCalls - s.pollCalls) ≤ 10 * (n : Int) := by
  induction n generalizing s with
  | zero =>
    refine ⟨s, rfl, le_refl _, ?_, ?_, ?_⟩ <;> simp only [Nat.sub_self, sumPositive]
    · exact Recorded.refl ops env s.hist
    · simp
    · simp
  | succ n ih =>
    obtain ⟨s1, h1, a1, a2, a3, a4⟩ := hbody s
    obtain ⟨s', h2, b1, b2, b3, b4⟩ := ih s1
    have hsplit : sumPositive env s.pollCalls (s'.pollCalls - s.pollCalls)
        = sumPositive env s.pollCalls (s1.pollCalls - s.pollCalls)
          + sumPositive env s1.pollCalls (s'.pollCalls - s1.pollCalls) := by
      have : s'.pollCalls - s.pollCalls
          = (s1.pollCalls - s.pollCalls) + (s'.pollCalls - s1.pollCalls) := by omega
      rw [this, sumPositive_add]
      have h3 : s.pollCalls + (s1.pollCalls - s.pollCalls) = s1.pollCalls := by omega
      rw [h3]
    refine ⟨s', by simp only [forLoop, h1, Outcome.bind, h2], by omega, ?_, ?_, ?_⟩
    · rw [hsplit]
      exact Recorded.trans a2 b2
    · rw [hsplit]
      push_cast
      linarith
    · rw [hsplit]
      push_cast
      linarith

/-! ## The claims about the retry loops -/

/-- C1, counterexample: on the statuses NOT_CONNECTED (-1), PUBLICATION_CLOSED
(-4), 64 neither offer loop stops at a terminal code: each is still spinning
after one and after two calls and returns only after the third. -/
theorem offer_loops_retry_terminal_codes :
    (sampleEnv [NOT_CONNECTED, PUBLICATION_CLOSED] []).offer 0 = -1
      ∧ (sampleEnv [NOT_CONNECTED, PUBLICATION_CLOSED] []).offer 1 = -4
      ∧ (warmupOfferLoop (sampleEnv [NOT_CONNECTED, PUBLICATION_CLOSED] []) 1
          (initState listHistogram)).map State.offerCalls = none
      ∧ (warmupOfferLoop (sampleEnv [NOT_CONNECTED, PUBLICATION_CLOSED] []) 3
          (initState listHistogram)).map State.offerCalls = some 3
      ∧ (steadyOfferLoop (sampleEnv [NOT_CONNECTED, PUBLICATION_CLOSED] []) 1
          (initState listHistogram)).map State.offerCalls = none
      ∧ (steadyOfferLoop (sampleEnv [NOT_CONNECTED, PUBLICATION_CLOSED] []) 3
          (initState listHistogram)).map State.offerCalls = some 3 := by
  decide

/-- C1, amended: both offer retry loops call `Offer` again after every negative
status, the terminal codes NOT_CONNECTED (-1) and PUBLICATION_CLOSED (-4) as
much as the transient codes BACK_PRESSURED (-2) and ADMIN_ACTION (-3).  When the
first `k` statuses are among these four codes and the next one is a position,
each loop returns after exactly `k + 1` calls (given fuel for them), and while
only such codes come back neither loop returns. -/
theorem offer_loops_retry_every_negative_code (env : Env) (fuel k : Nat) (s : State H)
    (hcodes : ∀ j, j < k → env.offer (s.offerCalls + j) = NOT_CONNECTED
      ∨ env.offer (s.offerCalls + j) = BACK_PRESSURED
      ∨ env.offer (s.offerCalls + j) = ADMIN_ACTION
      ∨ env.offer (s.offerCalls + j) = PUBLICATION_CLOSED)
    (hpos : 0 < env.offer (s.offerCalls + k)) :
    (k < fuel →
      (warmupOfferLoop env fuel s).map State.offerCalls = some (s.offerCalls + k + 1)
      ∧ (steadyOfferLoop env fuel s).map State.offerCalls = some (s.offerCalls + k + 1))
    ∧ (fuel ≤ k → warmupOfferLoop env fuel s = none ∧ steadyOfferLoop env fuel s = none) := by
  have hneg : ∀ j, j < k → env.offer (s.offerCalls + j) < 0 := by
    intro j hj
    rcases hcodes j hj with h | h | h | h <;> rw [h] <;> decide
  refine ⟨fun hfuel => ?_, fun hfuel => ?_⟩
  · obtain ⟨s1, h1, c1, _⟩ := warmupOfferLoop_exit env fuel k s
      (fun j hj => le_of_lt (hneg j hj)) hpos hfuel
    obtain ⟨s2, h2, c2, _⟩ := steadyOfferLoop_exit env fuel k s hneg (le_of_lt hpos) hfuel
    rw [h1, h2]
    exact ⟨congrArg some c1, congrArg some c2⟩
  · exact ⟨warmupOfferLoop_spin env fuel s (fun j hj => le_of_lt (hneg j (by omega))),
      steadyOfferLoop_spin env fuel s (fun j hj => hneg j (by omega))⟩

/-- C1, witness: the statuses -1, -4, 64 from a fresh state. -/
theorem offer_loops_retry_every_negative_code_witness :
    (warmupOfferLoop (sampleEnv [NOT_CONNECTED, PUBLICATION_CLOSED] []) 3
        (initState listHistogram)).map State.offerCalls = some (0 + 2 + 1)
      ∧ (steadyOfferLoop (sampleEnv [NOT_CONNECTED, PUBLICATION_CLOSED] []) 3
        (initState listHistogram)).map State.offerCalls = some (0 + 2 + 1) :=
  (offer_loops_retry_every_negative_code
    (sampleEnv [NOT_CONNECTED, PUBLICATION_CLOSED] []) 3 2 (initState listHistogram)
    (by decide) (by decide)).1 (by decide)

/-- C4: on every sequence of statuses that `Publication.Offer` returns, each a
position (`> 0`) or a negative code and never 0, the warm-up and the
steady-state offer loop busy-retry until progress is made: each calls `Offer`
again after every status that is not a position and stops at the first status
that is one, so both make the same number of `Offer` calls (`k + 1` when the
first position is the status of call `k`, given fuel for them), and while no
position comes back neither loop returns. -/
theorem offer_loops_busy_retry_until_position (env : Env) (hstatus : ∀ n, env.offer n ≠ 0)
    (fuel : Nat) (s : State H) :
    (warmupOfferLoop env fuel s).map State.offerCalls
        = (steadyOfferLoop env fuel s).map State.offerCalls
    ∧ (∀ k, (∀ j, j < k → env.offer (s.offerCalls + j) ≤ 0) →
        0 < env.offer (s.offerCalls + k) →
        (warmupOfferLoop env fuel s).map State.offerCalls
            = (if k < fuel then some (s.offerCalls + k + 1) else none)
          ∧ (steadyOfferLoop env fuel s).map State.offerCalls
            = (if k < fuel then some (s.offerCalls + k + 1) else none))
    ∧ ((∀ j, env.offer (s.offerCalls + j) ≤ 0) →
        ∀ n, warmupOfferLoop env n s = none ∧ steadyOfferLoop env n s = none) := by
  have hneg : ∀ n, env.offer n ≤ 0 → env.offer n < 0 :=
    fun n h => lt_of_le_of_ne h (hstatus n)
  have hchar : ∀ k, (∀ j, j < k → env.offer (s.offerCalls + j) ≤ 0) →
      0 < env.offer (s.offerCalls + k) →
      (warmupOfferLoop env fuel s).map State.offerCalls
          = (if k < fuel then some (s.offerCalls + k + 1) else none)
        ∧ (steadyOfferLoop env fuel s).map State.offerCalls
          = (if k < fuel then some (s.offerCalls + k + 1) else none) := by
    intro k hretry hstop
    by_cases hk : k < fuel
    · obtain ⟨s1, h1, c1, _⟩ := warmupOfferLoop_exit env fuel k s hretry hstop hk
      obtain ⟨s2, h2, c2, _⟩ := steadyOfferLoop_exit env fuel k s
        (fun j hj => hneg _ (hretry j hj)) (le_of_lt hstop) hk
      rw [h1, h2, if_pos hk]
      exact ⟨congrArg some c1, congrArg some c2⟩
    · rw [if_neg hk, warmupOfferLoop_spin env fuel s (fun j hj => hretry j (by omega)),
        steadyOfferLoop_spin env fuel s (fun j hj => hneg _ (hretry j (by omega)))]
      exact ⟨rfl, rfl⟩
  refine ⟨?_, hchar, fun hnone n =>
    ⟨warmupOfferLoop_spin env n s (fun j _ => hnone j),
      steadyOfferLoop_spin env n s (fun j _ => hneg _ (hnone j))⟩⟩
  rcases first_or_none (fun j => 0 < env.offer (s.offerCalls + j)) fuel with
    ⟨k, hk, hp, hmin⟩ | hnone
  · obtain ⟨e1, e2⟩ := hchar k (fun j hj => not_lt.mp (hmin j hj)) hp
    rw [e1, e2]
  · rw [warmupOfferLoop_spin env fuel s (fun j hj => not_lt.mp (hnone j hj)),
      steadyOfferLoop_spin env fuel s (fun j hj => hneg _ (not_lt.mp (hnone j hj)))]

/-- C4, witness: on the statuses -2, -3, 64, 64, .. both loops make three
calls. -/
theorem offer_loops_busy_retry_until_position_witness :
    (warmupOfferLoop (sampleEnv [BACK_PRESSURED, ADMIN_ACTION] []) 4
        (initState listHistogram)).map State.offerCalls = some 3
      ∧ (steadyOfferLoop (sampleEnv [BACK_PRESSURED, ADMIN_ACTION] []) 4
        (initState listHistogram)).map State.offerCalls = some 3 :=
  (offer_loops_busy_retry_until_position (sampleEnv [BACK_PRESSURED, ADMIN_ACTION] [])
    (fun n => by
      rcases n with _ | _ | _ | n <;> simp [sampleEnv, BACK_PRESSURED, ADMIN_ACTION])
    4 (initState listHistogram)).2.1 2 (by decide) (by decide)

/-- C5, counterexample: the first `Poll` returns the closed code -1 and the
second delivers one fragment; neither poll loop stops at the closed code: each
is still spinning after one call and returns only after the second. -/
theorem poll_loops_retry_closed_code :
    pollResult (sampleEnv [] [PollEvent.closed]) 0 = -1
      ∧ (warmupPollLoop listHistogram (sampleEnv [] [PollEvent.closed]) 1
          (initState listHistogram)).map State.pollCalls = none
      ∧ (warmupPollLoop listHistogram (sampleEnv [] [PollEvent.closed]) 2
          (initState listHistogram)).map State.pollCalls = some 2
      ∧ (steadyPollLoop listHistogram (sampleEnv [] [PollEvent.closed]) 1
          (initState listHistogram)).map State.pollCalls = none
      ∧ (steadyPollLoop listHistogram (sampleEnv [] [PollEvent.closed]) 2
          (initState listHistogram)).map State.pollCalls = some 2 := by
  decide

/-- C5, amended: both poll retry loops call `Poll` again after a result of 0 and
equally after the negative closed-subscription code.  When each of the first `k`
calls finds nothing ready or finds the subscription closed and the next call
delivers a fragment, each loop returns after exactly `k + 1` calls (given fuel
for them); while every call finds nothing or a closed subscription, neither
loop returns. -/
theorem poll_loops_retry_zero_and_closed (ops : Histogram H) (env : Env) (fuel k : Nat)
    (s : State H)
    (hidle : ∀ j, j < k → pollResult env (s.pollCalls + j) = 0
      ∨ pollResult env (s.pollCalls + j) = env.closedCode)
    (hpos : 0 < pollResult env (s.pollCalls + k)) :
    (k < fuel →
      (warmupPollLoop ops env fuel s).map State.pollCalls = some (s.pollCalls + k + 1)
      ∧ (steadyPollLoop ops env fuel s).map State.pollCalls = some (s.pollCalls + k + 1))
    ∧ (fuel ≤ k → warmupPollLoop ops env fuel s = none ∧ steadyPollLoop ops env fuel s = none) := by
  have hretry : ∀ j, j < k → pollResult env (s.pollCalls + j) ≤ 0 := by
    intro j hj
    rcases hidle j hj with h | h <;> rw [h]
    exact le_of_lt env.closedCode_neg
  refine ⟨fun hfuel => ?_, fun hfuel => ?_⟩
  · obtain ⟨s1, h1, c1, _⟩ := pollLoop_exit ops env _ (warmupPollLoop_like ops env) fuel k s
      hretry hpos hfuel
    obtain ⟨s2, h2, c2, _⟩ := pollLoop_exit ops env _ (steadyPollLoop_like ops env) fuel k s
      hretry hpos hfuel
    rw [h1, h2]
    exact ⟨congrArg some c1, congrArg some c2⟩
  · exact ⟨pollLoop_spin ops env _ (warmupPollLoop_like ops env) fuel s
        (fun j hj => hretry j (by omega)),
      pollLoop_spin ops env _ (steadyPollLoop_like ops env) fuel s
        (fun j hj => hretry j (by omega))⟩

/-- C5, witness: a closed code, then nothing ready, then one fragment. -/
theorem poll_loops_retry_zero_and_closed_witness :
    (warmupPollLoop listHistogram (sampleEnv [] [PollEvent.closed, PollEvent.ready []]) 5
        (initState listHistogram)).map State.pollCalls = some (0 + 2 + 1)
      ∧ (steadyPollLoop listHistogram (sampleEnv [] [PollEvent.closed, PollEvent.ready []]) 5
        (initState listHistogram)).map State.pollCalls = some (0 + 2 + 1) :=
  (poll_loops_retry_zero_and_closed listHistogram
    (sampleEnv [] [PollEvent.closed, PollEvent.ready []]) 5 2 (initState listHistogram)
    (by decide) (by decide)).1 (by decide)

/-- C8: the warm-up poll loop and the steady-state poll loop make the same
number of `Poll` calls on every sequence of results: both poll up to and
including the first strictly positive result (and are still polling when the
fuel ends before it), and on a sequence with no positive result neither ever
returns. -/
theorem poll_loops_equivalent (ops : Histogram H) (env : Env) (fuel : Nat) (s : State H) :
    (warmupPollLoop ops env fuel s).map State.pollCalls
        = (steadyPollLoop ops env fuel s).map State.pollCalls
    ∧ (∀ k, (∀ j, j < k → pollResult env (s.pollCalls + j) ≤ 0) →
        0 < pollResult env (s.pollCalls + k) →
        (warmupPollLoop ops env fuel s).map State.pollCalls
            = (if k < fuel then some (s.pollCalls + k + 1) else none)
          ∧ (steadyPollLoop ops env fuel s).map State.pollCalls
            = (if k < fuel then some (s.pollCalls + k + 1) else none))
    ∧ ((∀ j, pollResult env (s.pollCalls + j) ≤ 0) →
        ∀ n, warmupPollLoop ops env n s = none ∧ steadyPollLoop ops env n s = none) := by
  have hchar : ∀ (L : Nat → State H → Option (State H)), PollLoopLike ops env L →
      ∀ k, (∀ j, j < k → pollResult env (s.pollCalls + j) ≤ 0) →
        0 < pollResult env (s.pollCalls + k) →
        (L fuel s).map State.pollCalls
          = (if k < fuel then some (s.pollCalls + k + 1) else none) := by
    intro L hL k hretry hstop
    by_cases hk : k < fuel
    · obtain ⟨s1, h1, c1, _⟩ := pollLoop_exit ops env L hL fuel k s hretry hstop hk
      rw [h1, if_pos hk]
      exact congrArg some c1
    · rw [if_neg hk, pollLoop_spin ops env L hL fuel s (fun j hj => hretry j (by omega))]
      rfl
  refine ⟨?_, fun k hretry hstop => ⟨hchar _ (warmupPollLoop_like ops env) k hretry hstop,
    hchar _ (steadyPollLoop_like ops env) k hretry hstop⟩, fun hnone n =>
    ⟨pollLoop_spin ops env _ (warmupPollLoop_like ops env) n s (fun j _ => hnone j),
      pollLoop_spin ops env _ (steadyPollLoop_like ops env) n s (fun j _ => hnone j)⟩⟩
  rcases first_or_none (fun j => 0 < pollResult env (s.pollCalls + j)) fuel with
    ⟨k, hk, hp, hmin⟩ | hnone
  · have hretry : ∀ j, j < k → pollResult env (s.pollCalls + j) ≤ 0 :=
      fun j hj => not_lt.mp (hmin j hj)
    rw [hchar _ (warmupPollLoop_like ops env) k hretry hp,
      hchar _ (steadyPollLoop_like ops env) k hretry hp]
  · rw [pollLoop_spin ops env _ (warmupPollLoop_like ops env) fuel s
        (fun j hj => not_lt.mp (hnone j hj)),
      pollLoop_spin ops env _ (steadyPollLoop_like ops env) fuel s
        (fun j hj => not_lt.mp (hnone j hj))]

/-- C8, witness: nothing ready twice, then a fragment: both loops poll three
times. -/
theorem poll_loops_equivalent_witness :
    (warmupPollLoop listHistogram (sampleEnv [] [PollEvent.ready [], PollEvent.ready []]) 4
        (initState listHistogram)).map State.pollCalls = some 3
      ∧ (steadyPollLoop listHistogram (sampleEnv [] [PollEvent.ready [], PollEvent.ready []]) 4
        (initState listHistogram)).map State.pollCalls = some 3 :=
  (poll_loops_equivalent listHistogram (sampleEnv [] [PollEvent.ready [], PollEvent.ready []]) 4
    (initState listHistogram)).2.1 2 (by decide) (by decide)

/-! ## The report counts the steady-state phase only -/

theorem hdrHistogram_counts : hdrHistogram.Counts hdrAccepts :=
  ⟨fun _ => rfl,
    fun h v hv => by simp [hdrHistogram, hv],
    fun h v hv => by simp [hdrHistogram, hv]⟩

theorem run_eq_steadyPhase (ops : Histogram H) (env : Env) (fuel : Nat)
    (hmake : ¬ (env.size < 0 ∨ env.sizeLimit < env.size)) (warm : State H)
    (hwarm : warmupPhase ops env fuel (initState ops) = Outcome.done warm) :
    run ops env fuel = steadyPhase ops env fuel (resetHist ops warm) := by
  simp only [run, hmake, if_false, hwarm, Outcome.bind]

/-- What the run reaches when the buffer can be made and stamped and the calls
of `Offer` and `Poll` make progress within `B` calls. -/
theorem run_spec (ops : Histogram H) (env : Env) (B : Nat)
    (hsize : 8 ≤ env.size ∧ env.size ≤ env.sizeLimit)
    (hoffer : ∀ n, ∃ k, k < B ∧ 0 < env.offer (n + k))
    (hpoll : ∀ n, ∃ k, k < B ∧ 0 < pollResult env (n + k)) :
    ∃ warm final, warmupPhase ops env B (initState ops) = Outcome.done warm
      ∧ steadyPhase ops env B (resetHist ops warm) = Outcome.done final
      ∧ run ops env B = Outcome.done final
      ∧ warm.pollCalls ≤ final.pollCalls
      ∧ (∃ n : Int, 1000 ≤ n ∧ Recorded ops env (initState ops).hist warm.hist n)
      ∧ Recorded ops env (ops.Reset warm.hist) final.hist
          (sumPositive env warm.pollCalls (final.pollCalls - warm.pollCalls))
      ∧ (env.messages.toNat : Int)
          ≤ sumPositive env warm.pollCalls (final.pollCalls - warm.pollCalls)
      ∧ sumPositive env warm.pollCalls (final.pollCalls - warm.pollCalls)
          ≤ 10 * (env.messages.toNat : Int) := by
  obtain ⟨warm, w1, _, w3, w4, _⟩ := forLoop_spec ops env (warmupIteration ops env B)
    (warmupIteration_spec ops env B hsize.1 hoffer hpoll) warmupIt
    (logf ("Sending " ++ toString warmupIt ++ " messages of " ++ toString env.size
      ++ " bytes for warmup") (initState ops))
  obtain ⟨final, f1, f2, f3, f4, f5⟩ := forLoop_spec ops env (steadyIteration ops env B)
    (steadyIteration_spec ops env B hsize.1 hoffer hpoll) env.messages.toNat
    (logf ("Sending " ++ toString env.messages ++ " messages of " ++ toString env.size
      ++ " bytes") (resetHist ops warm))
  have w1' : warmupPhase ops env B (initState ops) = Outcome.done warm := w1
  have f1' : steadyPhase ops env B (resetHist ops warm) = Outcome.done final := f1
  refine ⟨warm, final, w1', f1', ?_, f2, ⟨_, w4, w3⟩, f3, f4, f5⟩
  have hmake : ¬ (env.size < 0 ∨ env.sizeLimit < env.size) := by
    intro h
    rcases h with h | h
    · omega
    · omega
  simp only [run, hmake, if_false, w1', Outcome.bind]
  exact f1'

/-- C9, amended: when `Size` is at least 8 (and the buffer can be made) and
every `Offer` and every `Poll` is followed within `B` calls by one that makes
progress, `main` reaches the report, and the histogram it reports is the reset
histogram after one `RecordValue` call per fragment delivered in the
steady-state phase and nothing else, whatever the 1000 warm-up iterations
recorded before the reset.  The number of those calls is the sum of the
positive `Poll` results of the steady-state phase, at least 1 and at most 10
per message.  The total count of the report is the number of those values that
the histogram accepts, since the error of `RecordValue` is dropped: it is at
most that sum, and equal to it when every value is accepted. -/
theorem report_counts_accepted_steady_state_values (ops : Histogram H)
    (accepts : Int → Bool) (hc : ops.Counts accepts) (env : Env) (B : Nat)
    (hsize : 8 ≤ env.size ∧ env.size ≤ env.sizeLimit)
    (hoffer : ∀ n, ∃ k, k < B ∧ 0 < env.offer (n + k))
    (hpoll : ∀ n, ∃ k, k < B ∧ 0 < pollResult env (n + k)) :
    ∃ (warm final : State H) (vs : List Int),
      warmupPhase ops env B (initState ops) = Outcome.done warm
      ∧ steadyPhase ops env B (resetHist ops warm) = Outcome.done final
      ∧ run ops env B = Outcome.done final
      ∧ final.hist = vs.foldl ops.RecordValue (ops.Reset warm.hist)
      ∧ (∀ v, v ∈ vs → HandlerValue env v)
      ∧ (vs.length : Int) = sumPositive env warm.pollCalls (final.pollCalls - warm.pollCalls)
      ∧ (env.messages.toNat : Int) ≤ (vs.length : Int)
      ∧ (vs.length : Int) ≤ 10 * (env.messages.toNat : Int)
      ∧ ops.TotalCount final.hist = ((vs.filter accepts).length : Int)
      ∧ ops.TotalCount final.hist
          ≤ sumPositive env warm.pollCalls (final.pollCalls - warm.pollCalls)
      ∧ ((∀ v, v ∈ vs → accepts v = true) → ops.TotalCount final.hist
          = sumPositive env warm.pollCalls (final.pollCalls - warm.pollCalls)) := by
  obtain ⟨warm, final, h1, h2, h3, _, _, ⟨vs, e, l, hv⟩, h7, h8⟩ :=
    run_spec ops env B hsize hoffer hpoll
  have hcount : ops.TotalCount final.hist = ((vs.filter accepts).length : Int) := by
    rw [e, count_foldl_recordValue hc, hc.reset, zero_add]
  have hle : ((vs.filter accepts).length : Int) ≤ (vs.length : Int) := by
    exact_mod_cast List.length_filter_le _ _
  refine ⟨warm, final, vs, h1, h2, h3, e, hv, l, ?_, ?_, hcount, ?_, fun hall => ?_⟩
  · rw [l]
    exact h7
  · rw [l]
    exact h8
  · rw [hcount, ← l]
    exact hle
  · rw [hcount, ← l, List.filter_eq_self.mpr hall]

/-- C9, witness: every `Offer` succeeds and every `Poll` delivers one fragment,
on the histogram of the example. -/
theorem report_counts_accepted_steady_state_values_witness :
    ∃ (warm final : State (List Int)) (vs : List Int),
      warmupPhase hdrHistogram (sampleEnv [] []) 1 (initState hdrHistogram) = Outcome.done warm
      ∧ steadyPhase hdrHistogram (sampleEnv [] []) 1 (resetHist hdrHistogram warm)
          = Outcome.done final
      ∧ run hdrHistogram (sampleEnv [] []) 1 = Outcome.done final
      ∧ final.hist = vs.foldl hdrHistogram.RecordValue (hdrHistogram.Reset warm.hist)
      ∧ (∀ v, v ∈ vs → HandlerValue (sampleEnv [] []) v)
      ∧ (vs.length : Int)
          = sumPositive (sampleEnv [] []) warm.pollCalls (final.pollCalls - warm.pollCalls)
      ∧ ((sampleEnv [] []).messages.toNat : Int) ≤ (vs.length : Int)
      ∧ (vs.length : Int) ≤ 10 * ((sampleEnv [] []).messages.toNat : Int)
      ∧ hdrHistogram.TotalCount final.hist = ((vs.filter hdrAccepts).length : Int)
      ∧ hdrHistogram.TotalCount final.hist
          ≤ sumPositive (sampleEnv [] []) warm.pollCalls (final.pollCalls - warm.pollCalls)
      ∧ ((∀ v, v ∈ vs → hdrAccepts v = true) → hdrHistogram.TotalCount final.hist
          = sumPositive (sampleEnv [] []) warm.pollCalls (final.pollCalls - warm.pollCalls)) :=
  report_counts_accepted_steady_state_values hdrHistogram hdrAccepts hdrHistogram_counts
    (sampleEnv [] []) 1 ⟨by decide, by decide⟩
    (fun _ => ⟨0, by decide, by simp [sampleEnv]⟩)
    (fun _ => ⟨0, by decide, by simp [sampleEnv, pollResult]⟩)

theorem forLoop_succ (body : State H → Outcome (State H)) (n : Nat) (s : State H) :
    forLoop body (n + 1) s = (body s).bind (forLoop body n) := rfl

theorem wrapInt64_of_range (x : Int) (h1 : -(2 : Int) ^ 63 ≤ x) (h2 : x < 2 ^ 63) :
    wrapInt64 x = x := by
  unfold wrapInt64
  rw [Int.emod_eq_of_lt (by omega) (by omega)]
  omega

/-- With a `Size` for which the buffer cannot be made, or one below 8, the run
stops with a panic before the first `Offer`, whatever the fuel. -/
theorem run_aborts_on_bad_size (ops : Histogram H) (env : Env) (fuel : Nat)
    (hsize : env.size < 8 ∨ env.sizeLimit < env.size) :
    run ops env fuel = Outcome.aborted := by
  by_cases hmake : env.size < 0 ∨ env.sizeLimit < env.size
  · simp only [run, hmake, if_true]
  · have h8 : env.size < 8 := by
      rcases hsize with h | h
      · exact h
      · exact absurd (Or.inr h) hmake
    have hit : warmupIt = 999 + 1 := rfl
    simp only [run, hmake, if_false, warmupPhase]
    rw [hit, forLoop_succ]
    simp only [warmupIteration, stamp, now, h8, if_true, Outcome.bind]

/-- In `skewedEnv` every value the handler records during the first million
clock readings is negative, which the histogram of the example rejects. -/
theorem skewed_value_rejected (c : Nat) (hc : c ≤ 1000000) :
    hdrAccepts (wrapInt64 (skewedEnv.clock c
      - lateFragment.buffer.GetInt64 lateFragment.offset)) = false := by
  have hneg : wrapInt64 (1700000000000000000 + (c : Int) * 1000 - 1700001000000000000) < 0 := by
    rw [wrapInt64_of_range _ (by omega) (by omega)]
    omega
  simp only [hdrAccepts, skewedEnv, lateFragment, decide_eq_false_iff_not, not_and, not_lt]
  intro h0
  exact absurd h0 (not_le.mpr hneg)

theorem skewed_warmupIteration (s : State (List Int)) (hh : s.hist = [])
    (hc : s.clockReads + 2 ≤ 1000000) :
    warmupIteration hdrHistogram skewedEnv 1 s = Outcome.done (skewedNext s) := by
  have hrej := skewed_value_rejected (s.clockReads + 1) (by omega)
  have hsize : ¬ skewedEnv.size < 8 := by decide
  have hoffer : ∀ n, skewedEnv.offer n = 64 := fun _ => rfl
  have hpoll : ∀ n, skewedEnv.poll n = PollEvent.ready [lateFragment] := fun _ => rfl
  have hdebug : skewedEnv.debug = false := rfl
  have hclock : ∀ n, skewedEnv.clock n = 1700000000000000000 + (n : Int) * 1000 := fun _ => rfl
  obtain ⟨hist, stamp, o, p, c, log⟩ := s
  simp only [] at hh hc hrej
  subst hh
  rw [hclock] at hrej
  push_cast at hrej
  simp [warmupIteration, Ping.stamp, now, Outcome.bind, Outcome.ofLoop, warmupOfferLoop, Offer,
    warmupPollLoop, Poll, handler, logf, skewedNext, hdrHistogram, hrej, hsize, hoffer, hpoll,
    hdebug, hclock]

theorem skewed_steadyIteration (s : State (List Int)) (hh : s.hist = [])
    (hc : s.clockReads + 2 ≤ 1000000) :
    steadyIteration hdrHistogram skewedEnv 1 s = Outcome.done (skewedNext s) := by
  have hrej := skewed_value_rejected (s.clockReads + 1) (by omega)
  have hsize : ¬ skewedEnv.size < 8 := by decide
  have hoffer : ∀ n, skewedEnv.offer n = 64 := fun _ => rfl
  have hpoll : ∀ n, skewedEnv.poll n = PollEvent.ready [lateFragment] := fun _ => rfl
  have hdebug : skewedEnv.debug = false := rfl
  have hclock : ∀ n, skewedEnv.clock n = 1700000000000000000 + (n : Int) * 1000 := fun _ => rfl
  obtain ⟨hist, stamp, o, p, c, log⟩ := s
  simp only [] at hh hc hrej
  subst hh
  rw [hclock] at hrej
  push_cast at hrej
  simp [steadyIteration, Ping.stamp, now, Outcome.bind, Outcome.ofLoop, steadyOfferLoop, Offer,
    steadyPollLoop, Poll, handler, logf, skewedNext, hdrHistogram, hrej, hsize, hoffer, hpoll,
    hdebug, hclock]

/-- A `for` loop in `skewedEnv` whose iterations each reject the one value
they record. -/
theorem skewed_forLoop (body : State (List Int) → Outcome (State (List Int)))
    (hbody : ∀ s, s.hist = [] → s.clockReads + 2 ≤ 1000000 →
      body s = Outcome.done (skewedNext s))
    (n : Nat) (s : State (List Int)) (hh : s.hist = []) (hc : s.clockReads + 2 * n ≤ 1000000) :
    ∃ s', forLoop body n s = Outcome.done s' ∧ s'.hist = []
      ∧ s'.pollCalls = s.pollCalls + n ∧ s'.clockReads = s.clockReads + 2 * n := by
  induction n generalizing s with
  | zero => exact ⟨s, rfl, hh, rfl, rfl⟩
  | succ n ih =>
    obtain ⟨s', h1, h2, h3, h4⟩ := ih (skewedNext s) rfl (by simp only [skewedNext]; omega)
    refine ⟨s', ?_, h2, ?_, ?_⟩
    · rw [forLoop_succ, hbody s hh (by omega)]
      exact h1
    · rw [h3]
      simp only [skewedNext]
      omega
    · rw [h4]
      simp only [skewedNext]
      omega

/-- C9, counterexample: in `skewedEnv`, with the histogram of the example and
two messages, the run reaches the report after a warm-up of 1000 polls and a
steady-state phase of two polls that deliver one fragment each, so the sum of
the positive `Poll` results of the steady-state phase is 2; both recorded
values are negative and rejected by `RecordValue`, whose error is dropped, and
the total count of the reported histogram is 0. -/
theorem report_count_misses_rejected_values :
    ∃ warm final,
      warmupPhase hdrHistogram skewedEnv 1 (initState hdrHistogram) = Outcome.done warm
      ∧ run hdrHistogram skewedEnv 1 = Outcome.done final
      ∧ warm.pollCalls = 1000 ∧ final.pollCalls = 1002
      ∧ sumPositive skewedEnv warm.pollCalls (final.pollCalls - warm.pollCalls) = 2
      ∧ hdrHistogram.TotalCount final.hist = 0 := by
  obtain ⟨warm, w1, w2, w3, w4⟩ := skewed_forLoop (warmupIteration hdrHistogram skewedEnv 1)
    skewed_warmupIteration warmupIt
    (logf ("Sending " ++ toString warmupIt ++ " messages of " ++ toString skewedEnv.size
      ++ " bytes for warmup") (initState hdrHistogram)) rfl (by decide)
  have hw4 : warm.clockReads = 2000 := w4
  obtain ⟨final, f1, f2, f3, _⟩ := skewed_forLoop (steadyIteration hdrHistogram skewedEnv 1)
    skewed_steadyIteration skewedEnv.messages.toNat
    (logf ("Sending " ++ toString skewedEnv.messages ++ " messages of "
      ++ toString skewedEnv.size ++ " bytes") (resetHist hdrHistogram warm)) rfl
    (by
      have : skewedEnv.messages.toNat = 2 := rfl
      rw [this]
      simp only [logf, resetHist, hw4]
      decide)
  have hw3 : warm.pollCalls = 1000 := w3
  have hf3 : final.pollCalls = 1002 := by
    rw [f3]
    simp only [logf, resetHist, hw3]
    rfl
  have w1' : warmupPhase hdrHistogram skewedEnv 1 (initState hdrHistogram) = Outcome.done warm :=
    w1
  refine ⟨warm, final, w1', ?_, hw3, hf3, ?_, ?_⟩
  · have hmake : ¬ (skewedEnv.size < 0 ∨ skewedEnv.sizeLimit < skewedEnv.size) := by decide
    have f1' : steadyPhase hdrHistogram skewedEnv 1 (resetHist hdrHistogram warm)
        = Outcome.done final := f1
    exact (run_eq_steadyPhase hdrHistogram skewedEnv 1 hmake warm w1').trans f1'
  · rw [hw3, hf3]
    decide
  · rw [f2]
    rfl

/-! ## The report: what reaches `out` -/

theorem digitChar_ne_newline (m : Nat) : Nat.digitChar m ≠ '\n' := by
  by_cases h : m < 16
  · interval_cases m <;> decide
  · obtain ⟨n, rfl⟩ : ∃ n, m = n + 16 := ⟨m - 16, by omega⟩
    have : Nat.digitChar (n + 16) = '*' := rfl
    rw [this]
    decide

theorem toDigitsCore_no_newline (fuel n : Nat) (ds : List Char)
    (hds : ∀ c, c ∈ ds → c ≠ '\n') : ∀ c, c ∈ Nat.toDigitsCore 10 fuel n ds → c ≠ '\n' := by
  induction fuel generalizing n ds with
  | zero => simpa [Nat.toDigitsCore] using hds
  | succ fuel ih =>
    intro c hc
    simp only [Nat.toDigitsCore] at hc
    have hds' : ∀ c, c ∈ Nat.digitChar (n % 10) :: ds → c ≠ '\n' := by
      intro c hc
      rcases List.mem_cons.mp hc with h | h
      · exact h ▸ digitChar_ne_newline _
      · exact hds c h
    split_ifs at hc
    · exact hds' c hc
    · exact ih _ _ hds' c hc

theorem natRepr_no_newline (n : Nat) : '\n' ∉ (Nat.repr n).data := by
  intro h
  exact toDigitsCore_no_newline (n + 1) n [] (fun _ hc => absurd hc (List.not_mem_nil _)) _
    (by simpa [Nat.repr, Nat.toDigits, List.asString] using h) rfl

theorem intToString_no_newline (n : Int) : '\n' ∉ (toString n).data := by
  cases n with
  | ofNat m => exact natRepr_no_newline m
  | negSucc m =>
    intro h
    have h' : '\n' ∈ ("-" ++ Nat.repr (m + 1)).data := h
    rw [String.data_append, List.mem_append] at h'
    rcases h' with h' | h'
    · revert h'
      decide
    · exact natRepr_no_newline _ h'

theorem isLine_append_newline (body : String) (h : '\n' ∉ body.data) :
    IsLine (body ++ "\n") := by
  have hd : (body ++ "\n").data = body.data ++ ['\n'] := by
    rw [String.data_append]
  refine ⟨by rw [hd, List.getLast?_append]; rfl, ?_⟩
  rw [hd, List.count_append, List.count_eq_zero.mpr h]
  rfl

theorem no_newline_append (a b : String) (ha : '\n' ∉ a.data) (hb : '\n' ∉ b.data) :
    '\n' ∉ (a ++ b).data := by
  rw [String.data_append, List.mem_append]
  exact fun h => h.elim ha hb

theorem fmtD_no_newline (w : Nat) (n : Int) : '\n' ∉ (fmtD w n).data := by
  unfold fmtD padLeft
  refine no_newline_append _ _ ?_ (intToString_no_newline n)
  intro h
  have := List.eq_of_mem_replicate h
  revert this
  decide

theorem bucketLine_isLine {F : Type} (fl : FloatOps F)
    (hfmt : ∀ w p x, '\n' ∉ (fl.fmt w p x).data) (scalingFactor : F) (b : Bracket F) :
    IsLine (bucketLine fl scalingFactor b) := by
  unfold bucketLine
  refine isLine_append_newline _ ?_
  refine no_newline_append _ _ (no_newline_append _ _ (no_newline_append _ _
    (no_newline_append _ _ (no_newline_append _ _ (no_newline_append _ _ (hfmt _ _ _) ?_)
      (hfmt _ _ _)) ?_) (fmtD_no_newline _ _)) ?_) (hfmt _ _ _) <;> decide

theorem meanLine_isLine {F : Type} (fl : FloatOps F)
    (hfmt : ∀ w p x, '\n' ∉ (fl.fmt w p x).data) (st : Stats H F) (h : H) (scalingFactor : F) :
    IsLine (meanLine fl st h scalingFactor) := by
  unfold meanLine
  have e : ("]\n" : String) = "]" ++ "\n" := rfl
  rw [e, ← String.append_assoc]
  refine isLine_append_newline _ ?_
  refine no_newline_append _ _ (no_newline_append _ _ (no_newline_append _ _
    (no_newline_append _ _ ?_ (hfmt _ _ _)) ?_) (hfmt _ _ _)) ?_ <;> decide

theorem maxLine_isLine {F : Type} (fl : FloatOps F)
    (hfmt : ∀ w p x, '\n' ∉ (fl.fmt w p x).data) (ops : Histogram H) (st : Stats H F) (h : H)
    (scalingFactor : F) : IsLine (maxLine fl ops st h scalingFactor) := by
  unfold maxLine
  have e : ("]\n" : String) = "]" ++ "\n" := rfl
  rw [e, ← String.append_assoc]
  refine isLine_append_newline _ ?_
  refine no_newline_append _ _ (no_newline_append _ _ (no_newline_append _ _
    (no_newline_append _ _ ?_ (hfmt _ _ _)) ?_) (fmtD_no_newline _ _)) ?_ <;> decide

theorem foldl_append_singleton {α β : Type} (g : β → α) (l : List β) (w : List α) :
    l.foldl (fun w b => w ++ [g b]) w = w ++ l.map g := by
  induction l generalizing w with
  | nil => simp
  | cons b l ih => simp [ih]

theorem OutputPercentileDistribution_eq {F : Type} (fl : FloatOps F) (ops : Histogram H)
    (st : Stats H F) (h : H) (scalingFactor : F) :
    OutputPercentileDistribution fl ops st h scalingFactor
      = (Sink.stdout, columnHeader)
        :: ((st.CumulativeDistribution h).map (fun b => (Sink.out, bucketLine fl scalingFactor b))
          ++ [(Sink.out, meanLine fl st h scalingFactor),
              (Sink.out, maxLine fl ops st h scalingFactor)]) := by
  unfold OutputPercentileDistribution
  simp only []
  rw [foldl_append_singleton (fun b => (Sink.out, bucketLine fl scalingFactor b))]
  simp

/-- C10: for a histogram with `k` buckets, `OutputPercentileDistribution`
writes to `out` exactly the `k` bucket lines in bucket order, then the
Mean/StdDeviation line, then the Max/Total count line: `k + 2` writes, each a
newline-terminated line (the `%f` verb producing no newline); the column header
is the one write that goes to standard output and is not among those of `out`. -/
theorem report_writes_k_plus_two_lines {F : Type} (fl : FloatOps F) (ops : Histogram H)
    (st : Stats H F) (h : H) (scalingFactor : F)
    (hfmt : ∀ w p x, '\n' ∉ (fl.fmt w p x).data) :
    writtenTo Sink.out (OutputPercentileDistribution fl ops st h scalingFactor)
        = (st.CumulativeDistribution h).map (bucketLine fl scalingFactor)
          ++ [meanLine fl st h scalingFactor, maxLine fl ops st h scalingFactor]
      ∧ (writtenTo Sink.out (OutputPercentileDistribution fl ops st h scalingFactor)).length
        = (st.CumulativeDistribution h).length + 2
      ∧ (∀ l, l ∈ writtenTo Sink.out (OutputPercentileDistribution fl ops st h scalingFactor) →
          IsLine l)
      ∧ writtenTo Sink.stdout (OutputPercentileDistribution fl ops st h scalingFactor)
        = [columnHeader]
      ∧ columnHeader ∉ writtenTo Sink.out
          (OutputPercentileDistribution fl ops st h scalingFactor) := by
  have hout : writtenTo Sink.out (OutputPercentileDistribution fl ops st h scalingFactor)
      = (st.CumulativeDistribution h).map (bucketLine fl scalingFactor)
        ++ [meanLine fl st h scalingFactor, maxLine fl ops st h scalingFactor] := by
    rw [OutputPercentileDistribution_eq]
    simp [writtenTo, List.filter_cons, List.filter_append, List.filter_map, Function.comp_def]
  have hlines : ∀ l, l ∈ writtenTo Sink.out
      (OutputPercentileDistribution fl ops st h scalingFactor) → IsLine l := by
    intro l hl
    rw [hout, List.mem_append] at hl
    rcases hl with hl | hl
    · obtain ⟨b, _, rfl⟩ := List.mem_map.mp hl
      exact bucketLine_isLine fl hfmt scalingFactor b
    · simp only [List.mem_cons, List.mem_singleton, List.not_mem_nil, or_false] at hl
      rcases hl with rfl | rfl
      · exact meanLine_isLine fl hfmt st h scalingFactor
      · exact maxLine_isLine fl hfmt ops st h scalingFactor
  refine ⟨hout, by rw [hout]; simp, hlines, ?_, fun hmem => ?_⟩
  · rw [OutputPercentileDistribution_eq]
    simp [writtenTo, List.filter_cons, List.filter_append, List.filter_map, Function.comp_def]
  · have := (hlines _ hmem).2
    revert this
    decide

/-- C10, witness: a histogram holding the three values 5000, 7000, 9000 makes
`out` receive five lines and standard output the header. -/
theorem report_writes_k_plus_two_lines_witness :
    writtenTo Sink.out
        (OutputPercentileDistribution sampleFloat listHistogram sampleStats [9000, 7000, 5000] 1000)
        = (sampleStats.CumulativeDistribution [9000, 7000, 5000]).map (bucketLine sampleFloat 1000)
          ++ [meanLine sampleFloat sampleStats [9000, 7000, 5000] 1000,
              maxLine sampleFloat listHistogram sampleStats [9000, 7000, 5000] 1000]
      ∧ (writtenTo Sink.out (OutputPercentileDistribution sampleFloat listHistogram sampleStats
          [9000, 7000, 5000] 1000)).length
        = (sampleStats.CumulativeDistribution [9000, 7000, 5000]).length + 2
      ∧ (∀ l, l ∈ writtenTo Sink.out (OutputPercentileDistribution sampleFloat listHistogram
          sampleStats [9000, 7000, 5000] 1000) → IsLine l)
      ∧ writtenTo Sink.stdout (OutputPercentileDistribution sampleFloat listHistogram sampleStats
          [9000, 7000, 5000] 1000) = [columnHeader]
      ∧ columnHeader ∉ writtenTo Sink.out (OutputPercentileDistribution sampleFloat listHistogram
          sampleStats [9000, 7000, 5000] 1000) :=
  report_writes_k_plus_two_lines sampleFloat listHistogram sampleStats [9000, 7000, 5000] 1000
    (fun _ _ x => intToString_no_newline x)

/-! ## The fragment handler -/

/-- C7: one invocation of the ping fragment handler records exactly one value
in the histogram, the `int64` difference between the clock reading and the
integer read from the buffer at `offset` (the plain difference whenever that
fits in 64 bits), and changes no other variable of `main`; it reads the clock
once and, when DEBUG logging is on, emits one log message (the offset, the
length and three header fields as decimal text).  The resulting state
depends on the buffer only through that integer and, log text apart, not at
all on the header or the length: with DEBUG logging off two fragments that hold
the same integer leave the same state. -/
theorem handler_records_one_value_only (ops : Histogram H) (env : Env) (f : Fragment)
    (s : State H) :
    (handler ops env f s).hist
        = ops.RecordValue s.hist
            (wrapInt64 (env.clock s.clockReads - f.buffer.GetInt64 f.offset))
      ∧ (-(2 : Int) ^ 63 ≤ env.clock s.clockReads - f.buffer.GetInt64 f.offset
          ∧ env.clock s.clockReads - f.buffer.GetInt64 f.offset < 2 ^ 63 →
          (handler ops env f s).hist
            = ops.RecordValue s.hist (env.clock s.clockReads - f.buffer.GetInt64 f.offset))
      ∧ (handler ops env f s).srcStamp = s.srcStamp
      ∧ (handler ops env f s).offerCalls = s.offerCalls
      ∧ (handler ops env f s).pollCalls = s.pollCalls
      ∧ (handler ops env f s).clockReads = s.clockReads + 1
      ∧ (env.debug = false → (handler ops env f s).log = s.log)
      ∧ (env.debug = true → (handler ops env f s).log = s.log ++ [receivedMessage f])
      ∧ (∀ f' : Fragment, f'.buffer.GetInt64 f'.offset = f.buffer.GetInt64 f.offset →
          { handler ops env f' s with log := [] } = { handler ops env f s with log := [] }
            ∧ (env.debug = false → handler ops env f' s = handler ops env f s)) := by
  obtain ⟨h1, h2, h3, h4⟩ := handler_frame ops env f s
  refine ⟨handler_hist ops env f s, fun hr => ?_, h3, h1, h2, h4, fun hd => ?_, fun hd => ?_,
    fun f' hf => ⟨?_, fun hd => ?_⟩⟩
  · rw [handler_hist]
    congr 1
    unfold wrapInt64
    omega
  · simp [handler, now, hd]
  · simp [handler, now, hd, logf]
  · unfold handler now logf
    cases env.debug <;> simp [hf]
  · simp [handler, now, hd, hf]

/-- C7, witness: a fragment holding the timestamp 0, received at clock 5000. -/
theorem handler_records_one_value_only_witness :
    (handler listHistogram (sampleEnv [] []) sampleFragment
        { initState listHistogram with clockReads := 5 }).hist = [5000]
      ∧ (handler listHistogram (sampleEnv [] []) sampleFragment
        { initState listHistogram with clockReads := 5 }).log = [] :=
  ⟨((handler_records_one_value_only listHistogram (sampleEnv [] []) sampleFragment
      { initState listHistogram with clockReads := 5 }).2.1 (by decide)).trans (by decide),
    (handler_records_one_value_only listHistogram (sampleEnv [] []) sampleFragment
      { initState listHistogram with clockReads := 5 }).2.2.2.2.2.2.1 rfl⟩

end Ping
namespace Stat

/-! ## `Scan` and the lines `aeron_stat` prints -/

theorem scanFrom_eq_foldl {σ : Type} (r : Reader) (visit : Counter → σ → σ) (n i : Nat)
    (st : σ) :
    r.scanFrom visit n i st
      = (((List.range' i n).filter
          (fun j => (r.metaData.slot j).state = CounterState.ALLOCATED)).map r.counterAt).foldl
          (fun st c => visit c st) st := by
  induction n generalizing i st with
  | zero => rfl
  | succ n ih =>
    simp only [Reader.scanFrom, List.range'_succ, List.filter_cons]
    by_cases h : (r.metaData.slot i).state = CounterState.ALLOCATED
    · simp [h, ih]
    · simp [h, ih]

theorem Scan_eq_foldl {σ : Type} (r : Reader) (visit : Counter → σ → σ) (st : σ) :
    r.Scan visit st = (r.allocated.map r.counterAt).foldl (fun st c => visit c st) st := by
  unfold Reader.Scan Reader.allocated
  rw [scanFrom_eq_foldl, List.range_eq_range']

theorem foldl_snoc_eq {α : Type} (l acc : List α) :
    l.foldl (fun acc c => acc ++ [c]) acc = acc ++ l := by
  induction l generalizing acc with
  | nil => simp
  | cons a l ih => simp [ih]

theorem foldl_append_string (l : List String) (acc : String) :
    l.foldl (fun a b => a ++ b) acc = acc ++ l.foldl (fun a b => a ++ b) "" := by
  induction l generalizing acc with
  | nil => simp
  | cons a l ih =>
    simp only [List.foldl_cons]
    rw [ih (acc ++ a), ih ("" ++ a), String.empty_append, String.append_assoc]

theorem join_cons (a : String) (l : List String) :
    String.join (a :: l) = a ++ String.join l := by
  unfold String.join
  simp only [List.foldl_cons]
  rw [foldl_append_string, String.empty_append]

theorem foldl_printCounter (l : List Counter) (out : String) :
    l.foldl (fun st c => printCounter c st) out = out ++ String.join (l.map counterLine) := by
  induction l generalizing out with
  | nil => simp [String.join]
  | cons c l ih =>
    simp only [List.foldl_cons, List.map_cons]
    rw [ih, join_cons]
    simp [printCounter, counterLine, String.append_assoc]

/-- C3: for every counters directory, `Scan` invokes its visitor once for each
ALLOCATED slot and for no other, in ascending slot-index order, with the id,
label and value of that slot; `main` prints one line `[id]=value\t\tlabel:label`
per visit in the same order.  On the example directory the visits are
`{1,"bytes-sent",42}`, `{3,"errors",0}` and the output is
`[1]=42\t\tlabel:bytes-sent\n[3]=0\t\tlabel:errors\n`. -/
theorem scan_visits_allocated_slots_in_order :
    (∀ (σ : Type) (r : Reader) (visit : Counter → σ → σ) (st : σ),
        r.Scan visit st = (r.allocated.map r.counterAt).foldl (fun st c => visit c st) st)
      ∧ (∀ r : Reader, r.visited = r.allocated.map r.counterAt
          ∧ r.visited.length = ((List.range r.metaData.capacity).filter
              (fun i => (r.metaData.slot i).state = CounterState.ALLOCATED)).length
          ∧ r.allocated.Sorted (fun i j => i < j))
      ∧ (∀ (ε : Type) (cf : MetaDataFlyweight) (e : ε),
          main (some cf, e)
            = Outcome.exited (String.join
                ((NewReader cf.ValuesBuf cf.MetaDataBuf).visited.map counterLine)))
      ∧ (∀ c : Counter, counterLine c
          = "[" ++ toString c.Id ++ "]=" ++ toString c.Value ++ "\t\tlabel:" ++ c.Label ++ "\n")
      ∧ (NewReader exampleDirectory.ValuesBuf exampleDirectory.MetaDataBuf).visited
          = [{ Id := 1, Label := "bytes-sent", Value := 42 },
             { Id := 3, Label := "errors", Value := 0 }]
      ∧ main (some exampleDirectory, ())
          = Outcome.exited "[1]=42\t\tlabel:bytes-sent\n[3]=0\t\tlabel:errors\n" := by
  have hvisited : ∀ r : Reader, r.visited = r.allocated.map r.counterAt := by
    intro r
    unfold Reader.visited
    rw [Scan_eq_foldl, foldl_snoc_eq, List.nil_append]
  refine ⟨fun σ r visit st => Scan_eq_foldl r visit st, fun r => ⟨hvisited r, ?_, ?_⟩,
    fun ε cf e => ?_, fun c => ?_, by decide, by decide⟩
  · rw [hvisited, List.length_map]
    rfl
  · unfold Reader.allocated
    exact List.Sorted.filter _ (List.sorted_lt_range _)
  · unfold main
    simp only []
    rw [Scan_eq_foldl, foldl_printCounter, hvisited, String.empty_append]
  · simp [counterLine, printCounter, String.append_assoc]

/-! ## `main` and the second result of `MapFile` -/

/-- C2, counterexample: a failed mapping is not reported by `main`.  With a nil
handle the run ends in the same nil-pointer dereference whether the file was
absent, too small, or no error was returned at all; with a handle returned
next to an error `main` builds the reader, scans and prints as if the mapping
had succeeded. -/
theorem main_discards_mapFile_error :
    main (none, some IOError.fileAbsent) = Outcome.nilDereference
      ∧ main (none, some IOError.fileTooSmall) = Outcome.nilDereference
      ∧ main (none, (none : Option IOError)) = Outcome.nilDereference
      ∧ main (some exampleDirectory, some IOError.fileTooSmall)
          = Outcome.exited "[1]=42\t\tlabel:bytes-sent\n[3]=0\t\tlabel:errors\n"
      ∧ main (some exampleDirectory, some IOError.fileTooSmall)
          = main (some exampleDirectory, (none : Option IOError)) := by
  decide

/-- C2, amended: `main` binds the second result of `counters.MapFile` to the
blank identifier, so its outcome is a function of the returned handle alone:
with a nil handle it ends in a nil-pointer dereference before any reader is
built, and with a non-nil handle it builds the reader and scans, whatever
second result came with it. -/
theorem main_outcome_ignores_second_result (ε : Type) (counterFile : Option MetaDataFlyweight)
    (e e' : ε) :
    main (counterFile, e) = main (counterFile, e')
      ∧ main ((none : Option MetaDataFlyweight), e) = Outcome.nilDereference
      ∧ ∀ cf : MetaDataFlyweight, main (some cf, e)
          = Outcome.exited ((NewReader cf.ValuesBuf cf.MetaDataBuf).Scan printCounter "") :=
  ⟨rfl, rfl, fun _ => rfl⟩

end Stat

namespace LogBuffer

/-! ## Layout lemmas -/

theorem le_align (n a : Nat) (ha : 0 < a) : n ≤ align n a := by
  unfold align
  have h1 := Nat.div_add_mod (n + a - 1) a
  have h2 := Nat.mod_lt (n + a - 1) ha
  have h3 : (n + a - 1) / a * a = a * ((n + a - 1) / a) := Nat.mul_comm _ _
  omega

theorem dataOf_append (xs ys : List Item) : dataOf (xs ++ ys) = dataOf xs ++ dataOf ys := by
  induction xs with
  | nil => rfl
  | cons x xs ih => cases x <;> simp [dataOf, ih]

/-- The items laid from `p` end at or after `p`. -/
theorem Laid.le {cfg : Config} {log : Log} {p e : Position} {xs : List Item}
    (h : Laid cfg log p xs e) :
    p.termId < e.termId ∨ (p.termId = e.termId ∧ p.termOffset ≤ e.termOffset) := by
  induction xs generalizing p with
  | nil =>
    have : p = e := h
    subst this
    exact Or.inr ⟨rfl, le_refl _⟩
  | cons x xs ih =>
    cases x with
    | data x =>
      obtain ⟨_, _, _, _, hrest⟩ := h
      rcases ih hrest with h1 | ⟨h1, h2⟩
      · exact Or.inl h1
      · exact Or.inr ⟨h1, le_trans (Nat.le_add_right _ _) h2⟩
    | roll =>
      obtain ⟨_, hrest⟩ := h
      rcases ih hrest with h1 | ⟨h1, _⟩
      · exact Or.inl (Nat.lt_of_succ_lt h1)
      · exact Or.inl (by simpa using Nat.lt_of_lt_of_eq (Nat.lt_succ_self p.termId) h1)

/-- Stores at or after `e` do not disturb the items laid before `e`. -/
theorem Laid.frame {cfg : Config} (hh : 0 < cfg.headerSize) (ha : 0 < cfg.frameAlignment)
    {log log' : Log} {p e : Position} {xs : List Item} (h : Laid cfg log p xs e)
    (hagree : ∀ t o, Before t o e →
      (log'.term t).header o = (log.term t).header o
        ∧ (log'.term t).bytes o = (log.term t).bytes o) :
    Laid cfg log' p xs e := by
  induction xs generalizing p with
  | nil => exact h
  | cons x xs ih =>
    cases x with
    | data x =>
      obtain ⟨h1, h2, h3, h4, hrest⟩ := h
      have hal := le_align (cfg.headerSize + x.length) cfg.frameAlignment ha
      have hb : ∀ o, o < p.termOffset + (cfg.headerSize + x.length) → Before p.termId o e := by
        intro o ho
        rcases hrest.le with h5 | ⟨h5, h6⟩
        · exact Or.inl h5
        · exact Or.inr ⟨h5, by simp only [] at h6; omega⟩
      refine ⟨h1, ?_, ?_, ?_, ih hrest⟩
      · rw [(hagree _ _ (hb _ (by omega))).1]
        exact h2
      · rw [(hagree _ _ (hb _ (by omega))).1]
        exact h3
      · intro i hi
        rw [(hagree _ _ (hb _ (by omega))).2]
        exact h4 i hi
    | roll =>
      obtain ⟨h1, hrest⟩ := h
      have hb : Before p.termId p.termOffset e := by
        rcases hrest.le with h5 | ⟨h5, _⟩
        · exact Or.inl (Nat.lt_of_succ_lt h5)
        · exact Or.inl (by simpa using Nat.lt_of_lt_of_eq (Nat.lt_succ_self p.termId) h5)
      refine ⟨?_, ih hrest⟩
      rw [(hagree _ _ hb).1]
      exact h1

theorem Laid.append {cfg : Config} {log : Log} {p m e : Position} {xs ys : List Item}
    (h1 : Laid cfg log p xs m) (h2 : Laid cfg log m ys e) : Laid cfg log p (xs ++ ys) e := by
  induction xs generalizing p with
  | nil =>
    have : p = m := h1
    subst this
    exact h2
  | cons x xs ih =>
    cases x with
    | data x =>
      obtain ⟨a1, a2, a3, a4, hrest⟩ := h1
      exact ⟨a1, a2, a3, a4, ih hrest⟩
    | roll =>
      obtain ⟨a1, hrest⟩ := h1
      exact ⟨a1, ih hrest⟩

/-! ## `Offer` keeps the publisher's invariant -/

theorem setTerm_term (log : Log) (t u : Nat) (tm : Term) :
    (log.setTerm t tm).term u = if u = t then tm else log.term u := rfl

theorem Quiet.mono {log : Log} {e e' : Position} (h : Quiet log e)
    (hle : ∀ t o, ¬ Before t o e' → ¬ Before t o e) : Quiet log e' :=
  fun t o hb => h t o (hle t o hb)

/-- An append to term `t`, at whose tail the laid items end. -/
theorem appendTo_inv {cfg : Config} (hh : 0 < cfg.headerSize) (ha : 0 < cfg.frameAlignment)
    (c : Conditions) (pub : Publication) (log : Log) (t : Nat) (payload : List Byte)
    (items : List Item)
    (hlaid : Laid cfg log { termId := 0, termOffset := 0 } items
      { termId := t, termOffset := (log.term t).tail })
    (hquiet : Quiet log { termId := t, termOffset := (log.term t).tail })
    (htails : ∀ u, t < u → (log.term u).tail = 0)
    (hcap : (log.term t).tail ≤ cfg.termCapacity) :
    ∃ new, Inv cfg (appendTo cfg c pub log t payload).2.1 (appendTo cfg c pub log t payload).2.2
        (items ++ new)
      ∧ new.length ≤ 1
      ∧ dataOf new = if 0 < (appendTo cfg c pub log t payload).1 then [payload] else [] := by
  have hal := le_align (cfg.headerSize + payload.length) cfg.frameAlignment ha
  have hagree : ∀ (tm : Term), (∀ o, o < (log.term t).tail → tm.header o = (log.term t).header o
        ∧ tm.bytes o = (log.term t).bytes o) →
      ∀ t' o, Before t' o { termId := t, termOffset := (log.term t).tail } →
        ((log.setTerm t tm).term t').header o = (log.term t').header o
          ∧ ((log.setTerm t tm).term t').bytes o = (log.term t').bytes o := by
    intro tm htm t' o hb
    rw [setTerm_term]
    by_cases ht : t' = t
    · subst ht
      rw [if_pos rfl]
      rcases hb with hb | ⟨_, hb⟩
      · exact absurd hb (lt_irrefl _)
      · exact htm o hb
    · rw [if_neg ht]
      exact ⟨rfl, rfl⟩
  by_cases htrip : cfg.termCapacity
      < (log.term t).tail + align (cfg.headerSize + payload.length) cfg.frameAlignment
  · -- the reservation exceeds the capacity: padding
    have hcode : ¬ (0 : Int) < (if c.canRotate then ADMIN_ACTION else BACK_PRESSURED) := by
      cases c.canRotate <;> decide
    have hpad : ∀ o, o < (log.term t).tail →
        (writePadding cfg pub t (log.term t) (log.term t).tail
          (align (cfg.headerSize + payload.length) cfg.frameAlignment)).header o
            = (log.term t).header o
        ∧ (writePadding cfg pub t (log.term t) (log.term t).tail
          (align (cfg.headerSize + payload.length) cfg.frameAlignment)).bytes o
            = (log.term t).bytes o := by
      intro o ho
      refine ⟨?_, rfl⟩
      simp only [writePadding]
      rw [if_neg (fun h => by omega)]
    refine ⟨[Item.roll], ?_, le_refl _, ?_⟩
    · simp only [appendTo, htrip, if_true]
      have hend : endPos cfg { pub with activeTermId := t }
          (log.setTerm t (writePadding cfg pub t (log.term t) (log.term t).tail
            (align (cfg.headerSize + payload.length) cfg.frameAlignment)))
          = { termId := t + 1, termOffset := 0 } := by
        simp only [endPos, setTerm_term, if_true, writePadding, htrip]
      refine ⟨?_, ?_, ?_⟩
      · rw [hend]
        refine Laid.append (Laid.frame hh ha hlaid (hagree _ hpad)) ⟨?_, rfl⟩
        by_cases hlt : (log.term t).tail < cfg.termCapacity
        · refine Or.inr ⟨?_, ?_⟩
          · simp only [setTerm_term, if_true, writePadding, hlt, and_self]
            omega
          · simp only [setTerm_term, if_true, writePadding, hlt, and_self]
        · exact Or.inl (not_lt.mp hlt)
      · rw [hend]
        intro t' o hb
        have ht' : t < t' := by
          by_contra hcon
          exact hb (Or.inl (by simp only []; omega))
        rw [setTerm_term, if_neg (by omega)]
        exact hquiet t' o (fun hb' => by
          rcases hb' with h | ⟨h, _⟩
          · simp only [] at h; omega
          · simp only [] at h; omega)
      · intro u hu
        simp only [] at hu
        rw [setTerm_term, if_neg (by omega)]
        exact htails u hu
    · simp only [appendTo, htrip, if_true, hcode, if_false, dataOf]
  · -- the frame fits
    have hfit : (log.term t).tail + align (cfg.headerSize + payload.length) cfg.frameAlignment
        ≤ cfg.termCapacity := not_lt.mp htrip
    have hcode : (0 : Int) < Position.toInt cfg { termId := t, termOffset := ((log.term t).tail
        + align (cfg.headerSize + payload.length) cfg.frameAlignment) } := by
      simp only [Position.toInt]
      have h1 : (0 : Int) ≤ (t : Int) * (cfg.termCapacity : Int) :=
        mul_nonneg (Int.ofNat_nonneg _) (Int.ofNat_nonneg _)
      have h2 : (0 : Int) < (((log.term t).tail
          + align (cfg.headerSize + payload.length) cfg.frameAlignment : Nat) : Int) := by
        exact_mod_cast (by omega : 0 < (log.term t).tail
          + align (cfg.headerSize + payload.length) cfg.frameAlignment)
      linarith
    have hfr : ∀ o, o < (log.term t).tail →
        (writeFrame cfg pub t (log.term t) (log.term t).tail payload).header o
            = (log.term t).header o
        ∧ (writeFrame cfg pub t (log.term t) (log.term t).tail payload).bytes o
            = (log.term t).bytes o := by
      intro o ho
      simp only [writeFrame]
      rw [if_neg (by omega), if_neg (fun h => by omega)]
      exact ⟨rfl, rfl⟩
    refine ⟨[Item.data payload], ?_, le_refl _, ?_⟩
    · simp only [appendTo, htrip, if_false]
      have hend : endPos cfg { pub with activeTermId := t }
          (log.setTerm t (writeFrame cfg pub t (log.term t) (log.term t).tail payload))
          = { termId := t, termOffset := ((log.term t).tail
              + align (cfg.headerSize + payload.length) cfg.frameAlignment) } := by
        simp only [endPos, setTerm_term, if_true, writeFrame, htrip, if_false]
      refine ⟨?_, ?_, ?_⟩
      · rw [hend]
        refine Laid.append (Laid.frame hh ha hlaid (hagree _ hfr)) ⟨?_, ?_, ?_, ?_, rfl⟩
        · simp only []
          omega
        · simp only [setTerm_term, if_true, writeFrame]
        · simp only [setTerm_term, if_true, writeFrame]
        · intro i hi
          simp only [setTerm_term, if_true, writeFrame]
          rw [if_pos ⟨by omega, by omega⟩]
          congr 1
          omega
      · rw [hend]
        intro t' o hb
        rw [setTerm_term]
        by_cases ht : t' = t
        · subst ht
          rw [if_pos rfl]
          have ho : (log.term t').tail
              + align (cfg.headerSize + payload.length) cfg.frameAlignment ≤ o := by
            by_contra hcon
            exact hb (Or.inr ⟨rfl, by simp only []; omega⟩)
          simp only [writeFrame]
          rw [if_neg (by omega)]
          exact hquiet t' o (fun hb' => by
            rcases hb' with h | ⟨_, h⟩
            · exact absurd h (lt_irrefl _)
            · simp only [] at h; omega)
        · rw [if_neg ht]
          have ht' : t < t' := by
            by_contra hcon
            exact hb (Or.inl (by simp only []; omega))
          exact hquiet t' o (fun hb' => by
            rcases hb' with h | ⟨h, _⟩
            · simp only [] at h; omega
            · simp only [] at h; omega)
      · intro u hu
        simp only [] at hu
        rw [setTerm_term, if_neg (by omega)]
        exact htails u hu
    · simp only [appendTo, htrip, if_false, hcode, if_true, dataOf]

/-- Every `Offer` keeps the invariant and adds at most one item: the frame of
its payload exactly when it returns a position. -/
theorem Offer_inv {cfg : Config} (hh : 0 < cfg.headerSize) (ha : 0 < cfg.frameAlignment)
    (c : Conditions) (payload : List Byte) (pub : Publication) (log : Log) (items : List Item)
    (hinv : Inv cfg pub log items) :
    ∃ new, Inv cfg (Offer cfg c payload pub log).2.1 (Offer cfg c payload pub log).2.2
        (items ++ new)
      ∧ new.length ≤ 1
      ∧ dataOf new = if 0 < (Offer cfg c payload pub log).1 then [payload] else [] := by
  have hsame : ∀ code : Int, ¬ 0 < code →
      ∃ new, Inv cfg ((code, pub, log) : Int × Publication × Log).2.1
          ((code, pub, log) : Int × Publication × Log).2.2 (items ++ new)
        ∧ new.length ≤ 1
        ∧ dataOf new = if 0 < ((code, pub, log) : Int × Publication × Log).1 then [payload]
            else [] := by
    intro code hcode
    refine ⟨[], by simpa using hinv, Nat.zero_le _, ?_⟩
    simp only [hcode, if_false, dataOf]
  unfold Offer
  by_cases hclosed : pub.closed = true
  · rw [if_pos hclosed]
    exact hsame _ (by decide)
  · rw [if_neg hclosed]
    by_cases hconn : (!c.connected) = true
    · rw [if_pos hconn]
      exact hsame _ (by decide)
    · rw [if_neg hconn]
      by_cases hex : cfg.termCapacity < (log.term pub.activeTermId).tail
      · rw [if_pos hex]
        by_cases hrot : c.canRotate = true
        · rw [if_pos hrot]
          have hend : endPos cfg pub log = { termId := pub.activeTermId + 1, termOffset := 0 } := by
            simp only [endPos, hex, if_true]
          have htail : (log.term (pub.activeTermId + 1)).tail = 0 :=
            hinv.tails _ (Nat.lt_succ_self _)
          refine appendTo_inv hh ha c pub log (pub.activeTermId + 1) payload items ?_ ?_ ?_ ?_
          · rw [htail, ← hend]
            exact hinv.laid
          · rw [htail, ← hend]
            exact hinv.quiet
          · exact fun u hu => hinv.tails u (by omega)
          · rw [htail]
            exact Nat.zero_le _
        · rw [if_neg hrot]
          exact hsame _ (by decide)
      · rw [if_neg hex]
        have hend : endPos cfg pub log
            = { termId := pub.activeTermId, termOffset := (log.term pub.activeTermId).tail } := by
          simp only [endPos, hex, if_false]
        refine appendTo_inv hh ha c pub log pub.activeTermId payload items ?_ ?_ hinv.tails
          (not_lt.mp hex)
        · rw [← hend]
          exact hinv.laid
        · rw [← hend]
          exact hinv.quiet

theorem Inv.fresh (cfg : Config) (sessionId streamId : Int) :
    Inv cfg (Publication.fresh sessionId streamId) Log.empty [] :=
  ⟨rfl, fun _ _ _ => rfl, fun _ _ => rfl⟩

/-- After any steps of the publisher the log holds, in order, the frames of
exactly the payloads whose offers succeeded. -/
theorem publish_inv {cfg : Config} (hh : 0 < cfg.headerSize) (ha : 0 < cfg.frameAlignment)
    (ops : List PubOp) (pub : Publication) (log : Log) (sent : List (List Byte))
    (items : List Item) (hinv : Inv cfg pub log items) (hsent : dataOf items = sent) :
    ∃ items', Inv cfg (publish cfg ops pub log sent).1 (publish cfg ops pub log sent).2.1 items'
      ∧ dataOf items' = (publish cfg ops pub log sent).2.2
      ∧ items'.length ≤ items.length + ops.length := by
  induction ops generalizing pub log sent items with
  | nil => exact ⟨items, hinv, hsent, le_refl _⟩
  | cons op ops ih =>
    cases op with
    | offer c payload =>
      obtain ⟨new, h1, h2, h3⟩ := Offer_inv hh ha c payload pub log items hinv
      obtain ⟨items', i1, i2, i3⟩ := ih (Offer cfg c payload pub log).2.1
        (Offer cfg c payload pub log).2.2
        (if 0 < (Offer cfg c payload pub log).1 then sent ++ [payload] else sent)
        (items ++ new) h1 (by
          rw [dataOf_append, h3, hsent]
          split_ifs <;> simp)
      refine ⟨items', i1, i2, ?_⟩
      simp only [List.length_append, List.length_cons] at i3 ⊢
      omega
    | close =>
      obtain ⟨items', i1, i2, i3⟩ := ih pub.Close log sent items
        ⟨hinv.laid, hinv.quiet, hinv.tails⟩ hsent
      refine ⟨items', i1, i2, ?_⟩
      simp only [List.length_cons]
      omega

/-- An `Offer` returns a position, which is positive, or one of the four
negative codes; it never returns 0. -/
theorem Offer_status {cfg : Config} (hh : 0 < cfg.headerSize) (ha : 0 < cfg.frameAlignment)
    (c : Conditions) (payload : List Byte) (pub : Publication) (log : Log) :
    0 < (Offer cfg c payload pub log).1
      ∨ (Offer cfg c payload pub log).1 = NOT_CONNECTED
      ∨ (Offer cfg c payload pub log).1 = BACK_PRESSURED
      ∨ (Offer cfg c payload pub log).1 = ADMIN_ACTION
      ∨ (Offer cfg c payload pub log).1 = PUBLICATION_CLOSED := by
  have happ : ∀ t, 0 < (appendTo cfg c pub log t payload).1
      ∨ (appendTo cfg c pub log t payload).1 = NOT_CONNECTED
      ∨ (appendTo cfg c pub log t payload).1 = BACK_PRESSURED
      ∨ (appendTo cfg c pub log t payload).1 = ADMIN_ACTION
      ∨ (appendTo cfg c pub log t payload).1 = PUBLICATION_CLOSED := by
    intro t
    have hal := le_align (cfg.headerSize + payload.length) cfg.frameAlignment ha
    unfold appendTo
    simp only []
    split_ifs with h1 h2
    · exact Or.inr (Or.inr (Or.inr (Or.inl rfl)))
    · exact Or.inr (Or.inr (Or.inl rfl))
    · refine Or.inl ?_
      simp only [Position.toInt]
      have h3 : (0 : Int) ≤ (t : Int) * (cfg.termCapacity : Int) :=
        mul_nonneg (Int.ofNat_nonneg _) (Int.ofNat_nonneg _)
      have h4 : (0 : Int) < (((log.term t).tail
          + align (cfg.headerSize + payload.length) cfg.frameAlignment : Nat) : Int) := by
        exact_mod_cast (by omega : 0 < (log.term t).tail
          + align (cfg.headerSize + payload.length) cfg.frameAlignment)
      linarith
  unfold Offer
  split_ifs
  · exact Or.inr (Or.inr (Or.inr (Or.inr rfl)))
  · exact Or.inr (Or.inl rfl)
  · exact happ _
  · exact Or.inr (Or.inr (Or.inl rfl))
  · exact happ _

/-! ## `Poll` reads what is laid -/

theorem range_map_eq (buf : Nat → Byte) (off : Nat) (x : List Byte)
    (h : ∀ i, i < x.length → buf (off + i) = x.getD i 0) :
    (List.range x.length).map (fun i => buf (off + i)) = x := by
  apply List.ext_getElem (by simp)
  intro i h1 h2
  simp only [List.getElem_map, List.getElem_range]
  rw [h i h2, List.getD_eq_getElem _ _ h2]

theorem Quiet.roll {log : Log} {e : Position} (h : Quiet log e) :
    Quiet log { termId := e.termId + 1, termOffset := 0 } :=
  h.mono (fun t o hb hb' => hb (by
    rcases hb' with h1 | ⟨h1, _⟩
    · exact Or.inl (Nat.lt_succ_of_lt h1)
    · exact Or.inl (by simp only []; omega)))

/-- One scan consumes a first part of the pending items, hands the payload of
each data item among them to the handler, in order, and leaves the rest
pending; with a positive limit it consumes at least one item when there is
one. -/
theorem scan_pending {σ : Type} {cfg : Config} (hh : 0 < cfg.headerSize) (log : Log)
    (h : Fragment → σ → σ) (n : Nat) (pos : Position) (items : List Item) (count : Nat) (st : σ)
    (hp : Pending cfg log pos items) :
    ∃ (k : Nat) (frs : List Fragment) (pos' : Position), scan cfg log h n pos count st
        = (count + frs.length, pos', frs.foldl (fun s f => h f s) st)
      ∧ frs.map Fragment.bytes = dataOf (items.take k)
      ∧ Pending cfg log pos' (items.drop k)
      ∧ k ≤ items.length ∧ (0 < n → items ≠ [] → 0 < k) := by
  induction n generalizing pos items count st with
  | zero =>
    exact ⟨0, [], pos, rfl, rfl, hp, Nat.zero_le _, fun h0 => absurd h0 (lt_irrefl _)⟩
  | succ n ih =>
    obtain ⟨e, hl, hq⟩ := hp
    cases items with
    | nil =>
      have hpe : pos = e := hl
      subst hpe
      by_cases hcap : cfg.termCapacity ≤ pos.termOffset
      · refine ⟨0, [], { termId := pos.termId + 1, termOffset := 0 }, ?_, rfl,
          ⟨_, rfl, hq.roll⟩, le_refl _, fun _ hne => absurd rfl hne⟩
        simp only [scan, hcap, if_true, List.length_nil, Nat.add_zero, List.foldl_nil]
      · have h0 : ((log.term pos.termId).header pos.termOffset).frameLength = 0 :=
          hq _ _ (fun hb => by
            rcases hb with hb | ⟨_, hb⟩
            · exact absurd hb (lt_irrefl _)
            · exact absurd hb (lt_irrefl _))
        refine ⟨0, [], pos, ?_, rfl, ⟨_, rfl, hq⟩, le_refl _, fun _ hne => absurd rfl hne⟩
        simp only [scan, hcap, if_false, h0, if_true, List.length_nil, Nat.add_zero,
          List.foldl_nil]
    | cons x xs =>
      cases x with
      | data x =>
        obtain ⟨a1, a2, a3, a4, hrest⟩ := hl
        have hne : ((log.term pos.termId).header pos.termOffset).frameLength ≠ 0 := by
          rw [a2]
          omega
        have hty : ((log.term pos.termId).header pos.termOffset).type ≠ FrameType.PAD := by
          rw [a3]
          decide
        obtain ⟨k, frs, pos', s1, s2, s3, s4, _⟩ := ih
          { termId := pos.termId
            termOffset := pos.termOffset + align (cfg.headerSize + x.length) cfg.frameAlignment }
          xs (count + 1) (h (fragmentAt cfg log pos) st) ⟨e, hrest, hq⟩
        refine ⟨k + 1, fragmentAt cfg log pos :: frs, pos', ?_, ?_, ?_, ?_,
          fun _ _ => Nat.succ_pos k⟩
        · simp only [scan, not_le.mpr a1, if_false, hne, hty]
          rw [a2, s1]
          simp only [List.length_cons, List.foldl_cons]
          congr 1
          omega
        · simp only [List.map_cons, List.take_succ_cons, dataOf, s2]
          congr 1
          simp only [Fragment.bytes, fragmentAt, a2, Nat.add_sub_cancel_left]
          exact range_map_eq _ _ x (fun i hi => a4 i hi)
        · simpa using s3
        · simpa using s4
      | roll =>
        obtain ⟨a1, hrest⟩ := hl
        refine ⟨1, [], { termId := pos.termId + 1, termOffset := 0 }, ?_, rfl,
          ⟨e, by simpa using hrest, hq⟩, by simp, fun _ _ => Nat.one_pos⟩
        by_cases hcap : cfg.termCapacity ≤ pos.termOffset
        · simp only [scan, hcap, if_true, List.length_nil, Nat.add_zero, List.foldl_nil]
        · rcases a1 with a1 | ⟨a1, a2⟩
          · exact absurd a1 hcap
          · simp only [scan, hcap, if_false, a1, a2, if_true, List.length_nil, Nat.add_zero,
              List.foldl_nil]

/-- Polling `n` times consumes a first part of the pending items, at least `n`
of them when that many are pending, and hands their payloads to the handler in
order. -/
theorem pollTimes_pending {σ : Type} {cfg : Config} (hh : 0 < cfg.headerSize) (log : Log)
    (closedCode : Int) (h : Fragment → σ → σ) (limit : Nat) (hl : 0 < limit) (n : Nat)
    (sub : Subscription) (st : σ) (items : List Item) (hopen : sub.closed = false)
    (hp : Pending cfg log sub.position items) :
    ∃ (k : Nat) (frs : List Fragment),
      (pollTimes cfg log closedCode h limit n sub st).2 = frs.foldl (fun s f => h f s) st
      ∧ frs.map Fragment.bytes = dataOf (items.take k)
      ∧ k ≤ items.length ∧ min n items.length ≤ k := by
  induction n generalizing sub st items with
  | zero => exact ⟨0, [], rfl, rfl, Nat.zero_le _, by simp⟩
  | succ n ih =>
    obtain ⟨k1, frs1, pos1, s1, s2, s3, s4, s5⟩ :=
      scan_pending hh log h limit sub.position items 0 st hp
    have hpoll : Poll cfg log closedCode h limit sub st
        = (((0 + frs1.length : Nat) : Int), { sub with position := pos1 },
            frs1.foldl (fun s f => h f s) st) := by
      simp only [Poll, hopen, Bool.false_eq_true, if_false, s1]
    obtain ⟨k2, frs2, t1, t2, t3, t4⟩ := ih { sub with position := pos1 }
      (frs1.foldl (fun s f => h f s) st) (items.drop k1) hopen s3
    refine ⟨k1 + k2, frs1 ++ frs2, ?_, ?_, ?_, ?_⟩
    · simp only [pollTimes, hpoll, t1, List.foldl_append]
    · rw [List.map_append, s2, t2, List.take_add, dataOf_append]
    · simp only [List.length_drop] at t3
      omega
    · simp only [List.length_drop] at t3 t4
      cases items with
      | nil => simp
      | cons x xs =>
        have := s5 hl (List.cons_ne_nil x xs)
        simp only [List.length_cons] at *
        omega

/-- C6: for every sequence of publisher steps on a fresh stream, with `N` the
number of offers that succeeded, a fresh subscription that polls the stream has
its handler invoked on a first part of the `N` payloads, in offer order, never
on anything else; once it has polled as many times as there were steps the
handler has been invoked exactly `N` times, and the bytes that the `i`-th
invocation's `(buffer, offset, length)` denotes are the `i`-th payload
offered. -/
theorem poll_delivers_offered_in_order {σ : Type} (cfg : Config) (hh : 0 < cfg.headerSize)
    (ha : 0 < cfg.frameAlignment) (ops : List PubOp) (sessionId streamId closedCode : Int)
    (h : Fragment → σ → σ) (limit : Nat) (hl : 0 < limit) (st : σ) :
    (∀ n, ∃ (frs : List Fragment) (rest : List (List Byte)),
        (pollTimes cfg (publish cfg ops (Publication.fresh sessionId streamId) Log.empty []).2.1
          closedCode h limit n Subscription.fresh st).2 = frs.foldl (fun s f => h f s) st
        ∧ frs.map Fragment.bytes ++ rest
          = (publish cfg ops (Publication.fresh sessionId streamId) Log.empty []).2.2)
    ∧ (∀ n, ops.length ≤ n → ∃ frs : List Fragment,
        (pollTimes cfg (publish cfg ops (Publication.fresh sessionId streamId) Log.empty []).2.1
          closedCode h limit n Subscription.fresh st).2 = frs.foldl (fun s f => h f s) st
        ∧ frs.length
          = (publish cfg ops (Publication.fresh sessionId streamId) Log.empty []).2.2.length
        ∧ frs.map Fragment.bytes
          = (publish cfg ops (Publication.fresh sessionId streamId) Log.empty []).2.2) := by
  obtain ⟨items, hinv, hdata, hlen⟩ := publish_inv hh ha ops (Publication.fresh sessionId streamId)
    Log.empty [] [] (Inv.fresh cfg sessionId streamId) rfl
  have hp : Pending cfg (publish cfg ops (Publication.fresh sessionId streamId) Log.empty []).2.1
      Subscription.fresh.position items := ⟨_, hinv.laid, hinv.quiet⟩
  refine ⟨fun n => ?_, fun n hn => ?_⟩
  · obtain ⟨k, frs, h1, h2, _, _⟩ := pollTimes_pending hh _ closedCode h limit hl n
      Subscription.fresh st items rfl hp
    refine ⟨frs, dataOf (items.drop k), h1, ?_⟩
    rw [h2, ← dataOf_append, List.take_append_drop, hdata]
  · obtain ⟨k, frs, h1, h2, h3, h4⟩ := pollTimes_pending hh _ closedCode h limit hl n
      Subscription.fresh st items rfl hp
    have hk : k = items.length := by
      simp only [List.length_nil, Nat.zero_add] at hlen
      omega
    have hall : frs.map Fragment.bytes
        = (publish cfg ops (Publication.fresh sessionId streamId) Log.empty []).2.2 := by
      rw [h2, hk, List.take_length, hdata]
    refine ⟨frs, h1, ?_, hall⟩
    rw [← hall, List.length_map]

/-- C6, witness: of three offers the first and the third succeed; three polls
with the recording handler see exactly their two payloads, in order. -/
theorem poll_delivers_offered_in_order_witness :
    ∃ frs : List Fragment,
      (pollTimes exampleConfig
          (publish exampleConfig exampleOps (Publication.fresh 1 10) Log.empty []).2.1
          (-1) record 10 3 Subscription.fresh []).2 = frs.foldl (fun s f => record f s) []
        ∧ frs.length
          = (publish exampleConfig exampleOps (Publication.fresh 1 10) Log.empty []).2.2.length
        ∧ frs.map Fragment.bytes
          = (publish exampleConfig exampleOps (Publication.fresh 1 10) Log.empty []).2.2 :=
  (poll_delivers_offered_in_order exampleConfig (by decide) (by decide) exampleOps 1 10 (-1)
    record 10 (by decide) []).2 3 (le_refl 3)

/-! ## The specification's examples, on the model -/

/-- With term capacity 1024 and aligned frame size 64, sixteen offers fill the
term, the seventeenth returns ADMIN_ACTION, and the retry succeeds in the next
term. -/
theorem offer_rotation_example :
    (publish exampleConfig (fillOps 16) (Publication.fresh 1 10) Log.empty []).2.2.length = 16
      ∧ (Offer exampleConfig { connected := true, canRotate := true } (List.replicate 32 0)
          (publish exampleConfig (fillOps 16) (Publication.fresh 1 10) Log.empty []).1
          (publish exampleConfig (fillOps 16) (Publication.fresh 1 10) Log.empty []).2.1).1
        = ADMIN_ACTION
      ∧ (Offer exampleConfig { connected := true, canRotate := true } (List.replicate 32 0)
          (publish exampleConfig (fillOps 17) (Publication.fresh 1 10) Log.empty []).1
          (publish exampleConfig (fillOps 17) (Publication.fresh 1 10) Log.empty []).2.1).1
        = 1024 + 64 := by
  decide

/-- Offering a zero-length payload advances the position by one aligned
header-only frame, and `Poll` delivers one fragment with body length 0. -/
theorem offer_empty_payload_example :
    (Offer exampleConfig { connected := true, canRotate := true } []
        (Publication.fresh 1 10) Log.empty).1 = 32
      ∧ ((Poll exampleConfig
          (Offer exampleConfig { connected := true, canRotate := true } []
            (Publication.fresh 1 10) Log.empty).2.2
          (-1) record 10 Subscription.fresh []).2.2.map (fun f => f.length)) = [0] := by
  decide

end LogBuffer

